import Mathlib

/-!
Verification of the shellpy preprocessor (`shellpython/preprocessor.py`).

The preprocessor is embedded shallowly:

* Text buffers are `List Char` (`Str` below); Python strings are lists of
  characters and all the operations the source uses (`str.replace`,
  `str.strip`, `str.find`, slicing) are reimplemented on that type with
  Python's semantics.
* The `re` patterns of the source are data of a small token language, and a
  backtracking matcher (`matchToks`) enumerates all matches of a token list
  in backtracking preference order; `searchFrom`, `finditer`, `subAll`
  reproduce `re.search`, `re.finditer` and `re.sub` for those patterns.
  Each compiled pattern of the source is transcribed token by token
  (character classes, greedy/lazy quantifiers, `^`/`$` with MULTILINE
  semantics, capture-group marks).  The engine supports one level of
  group-`+` (the source's only `+`, in the long-line pattern, has a body
  free of nested groups), so `+` bodies are matched by the plus-free
  matcher `matchToks0`.
* Filesystem-dependent functions (`is_compilation_needed`,
  `preprocess_file`) take the filesystem answers they consult (does the
  artifact exist, its first two lines, the source's mtime string, mode
  bits, template contents) as explicit parameters, and return the effects
  they would perform (directory creation mode, written content, chmod
  calls) in a record.
* Paths are lists of components; `os.path.join` of absolute pieces is list
  append, and `os.path.relpath(p, '/')` of a normalized absolute path is
  the component list itself.
-/

namespace Shellpy

/-- Text buffers: Python strings as lists of characters. -/
abbrev Str := List Char

/-- Does `pat` occur in `s` starting at index `pos`? -/
def startsWithAt (s : Str) (pos : Nat) (pat : Str) : Bool :=
  pat.isPrefixOf (s.drop pos)

/-- The slice `s[a:b]` (Python slicing with `a ≤ b`). -/
def slice (s : Str) (a b : Nat) : Str :=
  (s.take b).drop a

/-- Number of indices at which `pat` occurs in `s`. -/
def countOcc (pat : Str) : Str → Nat
  | [] => 0
  | c :: rest => (if pat.isPrefixOf (c :: rest) then 1 else 0) + countOcc pat rest

/-- Python `old in s` / `s.find(old) != -1`: does `pat` occur in `s`? -/
def containsSub (s pat : Str) : Bool :=
  decide (0 < countOcc pat s)

/-- One fuel-indexed step list for Python `s.replace`: each recursion
consumes at least one character of the remaining text, so fuel equal to
the text's length is always sufficient. -/
def replGo (old new : Str) : Nat → Str → Str
  | 0, s' => s'
  | _ + 1, [] => []
  | fuel + 1, c :: rest =>
    if old ≠ [] && old.isPrefixOf (c :: rest) then
      new ++ replGo old new fuel ((c :: rest).drop old.length)
    else
      c :: replGo old new fuel rest

/-- Python `s.replace(old, new)`: replace every occurrence of `old` left to
right, never rescanning inserted text.  The source never calls it with an
empty `old`; for an empty `old` this returns `s` unchanged. -/
def replaceAll (s old new : Str) : Str :=
  replGo old new s.length s

/-- Python whitespace (`str.strip`, `\s`): space, tab, LF, CR, FF, VT
(the ASCII fragment of the Python definition). -/
def isPySpace (c : Char) : Bool :=
  c = ' ' || c = '\t' || c = '\n' || c = '\r' || c = '\x0c' || c = '\x0b'

/-- Python `s.strip()`. -/
def pyStrip (s : Str) : Str :=
  (((s.dropWhile isPySpace).reverse).dropWhile isPySpace).reverse

/-- `[a-z]` character class. -/
def isLowerAZ (c : Char) : Bool :=
  'a' ≤ c && c ≤ 'z'

/-- `[\n\r]` character class. -/
def isNlCr (c : Char) : Bool :=
  c = '\n' || c = '\r'

/-- `.` without DOTALL: any character but LF. -/
def notNl (c : Char) : Bool :=
  c ≠ '\n'

/-- `.` with DOTALL: any character. -/
def anyChar (_ : Char) : Bool :=
  true

/-- ``[^`\n\r]`` character class. -/
def notBtNlCr (c : Char) : Bool :=
  c ≠ '`' && c ≠ '\n' && c ≠ '\r'

/-- Quantifier of a character class token. -/
inductive Quant
  | one
  | opt
  | star
  | lazyStar

/-- Pattern tokens. -/
inductive Tok
  | lit : Str → Tok
  | cls : (Char → Bool) → Quant → Tok
  | bol : Tok
  | eol : Tok
  | mark : Nat → Tok
  | plus : List Tok → Tok

/-- Recorded capture positions: pairs of mark index and buffer position. -/
abbrev Marks := List (Nat × Nat)

/-- Length of the maximal run of characters satisfying `p` at `pos`. -/
def countRun (p : Char → Bool) (s : Str) (pos : Nat) : Nat :=
  go (s.drop pos)
where
  go : Str → Nat
    | [] => 0
    | c :: rest => if p c then go rest + 1 else 0

/-- The end positions a class token can advance to, in backtracking
preference order (greedy: longest first; lazy: shortest first). -/
def clsAdvance (p : Char → Bool) (q : Quant) (s : Str) (pos : Nat) : List Nat :=
  let run := countRun p s pos
  match q with
  | .one => if 0 < run then [pos + 1] else []
  | .opt => if 0 < run then [pos + 1, pos] else [pos]
  | .star => ((List.range (run + 1)).reverse).map (pos + ·)
  | .lazyStar => (List.range (run + 1)).map (pos + ·)

/-- MULTILINE `^`: start of buffer or just after a `\n`. -/
def atBol (s : Str) (pos : Nat) : Bool :=
  pos == 0 || s[pos - 1]? == some '\n'

/-- MULTILINE `$`: end of buffer or just before a `\n`. -/
def atEol (s : Str) (pos : Nat) : Bool :=
  pos == s.length || s[pos]? == some '\n'

/-- All matches of a plus-free token list at `pos`, as
`(end position, marks)` pairs in backtracking preference order. -/
def matchToks0 (s : Str) : List Tok → Nat → List (Nat × Marks)
  | [], pos => [(pos, [])]
  | .lit l :: t, pos =>
    if startsWithAt s pos l then matchToks0 s t (pos + l.length) else []
  | .bol :: t, pos => if atBol s pos then matchToks0 s t pos else []
  | .eol :: t, pos => if atEol s pos then matchToks0 s t pos else []
  | .mark k :: t, pos =>
    (matchToks0 s t pos).map (fun r => (r.1, (k, pos) :: r.2))
  | .cls p q :: t, pos =>
    (clsAdvance p q s pos).flatMap (fun pos' => matchToks0 s t pos')
  | .plus _ :: _, _ => []

/-- Fuel-indexed iteration of `(inner)+`: every further iteration starts
strictly later in the buffer, so fuel `s.length + 1 - pos` is always
sufficient. -/
def plusResF (s : Str) (inner : List Tok) : Nat → Nat → List (Nat × Marks)
  | 0, _ => []
  | fuel + 1, pos =>
    (matchToks0 s inner pos).flatMap (fun r =>
      if pos < r.1 ∧ r.1 ≤ s.length then
        ((plusResF s inner fuel r.1).map (fun r' => (r'.1, r.2 ++ r'.2))) ++ [r]
      else [r])

/-- All ways `(inner)+` can match at `pos` (one or more iterations, greedy:
more iterations preferred), with the iteration-progress guard; the body is
matched by the plus-free matcher. -/
def plusRes (s : Str) (inner : List Tok) (pos : Nat) : List (Nat × Marks) :=
  plusResF s inner (s.length + 1 - pos) pos

/-- All matches of a token list at `pos`, in backtracking preference order,
so the head is the match Python's `re` finds at `pos`. -/
def matchToks (s : Str) : List Tok → Nat → List (Nat × Marks)
  | [], pos => [(pos, [])]
  | .lit l :: t, pos =>
    if startsWithAt s pos l then matchToks s t (pos + l.length) else []
  | .bol :: t, pos => if atBol s pos then matchToks s t pos else []
  | .eol :: t, pos => if atEol s pos then matchToks s t pos else []
  | .mark k :: t, pos =>
    (matchToks s t pos).map (fun r => (r.1, (k, pos) :: r.2))
  | .cls p q :: t, pos =>
    (clsAdvance p q s pos).flatMap (fun pos' => matchToks s t pos')
  | .plus inner :: t, pos =>
    (plusRes s inner pos).flatMap (fun r =>
      (matchToks s t r.1).map (fun r' => (r'.1, r.2 ++ r'.2)))

/-- The match Python's backtracking engine finds at `pos`, if any. -/
def matchAt (toks : List Tok) (s : Str) (pos : Nat) : Option (Nat × Marks) :=
  (matchToks s toks pos).head?

/-- Fuel-indexed scan for the leftmost match position: the scan advances
one position per step, so fuel `s.length + 1 - pos` is always
sufficient. -/
def searchFromF (toks : List Tok) (s : Str) : Nat → Nat → Option (Nat × Nat × Marks)
  | 0, _ => none
  | fuel + 1, pos =>
    if pos ≤ s.length then
      match matchAt toks s pos with
      | some (e, m) => some (pos, e, m)
      | none => searchFromF toks s fuel (pos + 1)
    else none

/-- Leftmost match at or after `pos`: `(start, end, marks)`. -/
def searchFrom (toks : List Tok) (s : Str) (pos : Nat) :
    Option (Nat × Nat × Marks) :=
  searchFromF toks s (s.length + 1 - pos) pos

/-- Group `k`'s last recorded span, read from mark indices `2k` and
`2k + 1` (on repeated marks from `+` iterations the last occurrence wins,
as in Python). -/
def groupSpan (ms : Marks) (k : Nat) : Option (Nat × Nat) :=
  match (ms.reverse).lookup (2 * k), (ms.reverse).lookup (2 * k + 1) with
  | some a, some b => some (a, b)
  | _, _ => none

/-- One piece of a replacement template: a literal chunk or a group
reference `\k`. -/
inductive Repl
  | str : Str → Repl
  | grp : Nat → Repl

/-- One template piece instantiated for a match on `s` with marks `ms`. -/
def applyRepl (s : Str) (ms : Marks) : Repl → Str
  | .str chunk => chunk
  | .grp k =>
    match groupSpan ms k with
    | some (a, b) => slice s a b
    | none => []

/-- Instantiate a replacement template for a match on `s` with marks `ms`. -/
def buildRepl (s : Str) (ms : Marks) (tpl : List Repl) : Str :=
  tpl.flatMap (applyRepl s ms)

/-- Fuel-indexed `re.sub` scan: each found match advances the scan
position by at least one, so fuel `s.length + 1` from position `0` is
always sufficient. -/
def subAllF (toks : List Tok) (tpl : List Repl) (s : Str) : Nat → Nat → Str
  | 0, pos => s.drop pos
  | fuel + 1, pos =>
    match searchFrom toks s pos with
    | none => s.drop pos
    | some (st, e, m) =>
      slice s pos st ++ buildRepl s m tpl ++
        (if st < e then subAllF toks tpl s fuel e
         else
          match s[st]? with
          | some c => c :: subAllF toks tpl s fuel (st + 1)
          | none => [])

/-- `re.sub(pattern, template, s)` over the whole buffer (all occurrences,
scanning left to right, non-overlapping). -/
def subAll (toks : List Tok) (tpl : List Repl) (s : Str) : Str :=
  subAllF toks tpl s (s.length + 1) 0

/-- Fuel-indexed `re.finditer` scan. -/
def finditerF (toks : List Tok) (s : Str) : Nat → Nat → List Str
  | 0, _ => []
  | fuel + 1, pos =>
    match searchFrom toks s pos with
    | none => []
    | some (st, e, _) =>
      slice s st e ::
        (if st < e then finditerF toks s fuel e else finditerF toks s fuel (st + 1))

/-- `re.finditer` over the whole buffer: the list of matched substrings,
left to right, non-overlapping. -/
def finditer (toks : List Tok) (s : Str) : List Str :=
  finditerF toks s (s.length + 1) 0

/-- The single-quote character (avoiding quote escapes in literals). -/
def qc : Char :=
  Char.ofNat 39

/-! ### The source's patterns and passes -/

/-- Index of the first occurrence of `pat` in `s` (Python `s.find(pat)`
when it succeeds). -/
def findSub : Str → Str → Option Nat
  | _, [] => some 0
  | [], _ :: _ => none
  | c :: rest, p :: ps =>
    if (p :: ps).isPrefixOf (c :: rest) then some 0
    else (findSub rest (p :: ps)).map (· + 1)

/-- `spy_file_pattern.sub(r"\1.py", path)` for `spy_file_pattern =
re.compile(r'(.*)\.spy$')`: greedy `(.*)` anchored at the end means the
path is rewritten exactly when it ends in `.spy` (paths contain no
newline). -/
def spySub (p : Str) : Str :=
  if ".spy".data.isSuffixOf p then p.take (p.length - 4) ++ ".py".data else p

/-- `mod_time_pattern.search(line)` for `re.compile('#mtime:(.*)')`,
returning `group(1)`: everything after the first `#mtime:` up to the end
of the line (`.` stops at LF). -/
def modTimeSearch (line : Str) : Option Str :=
  match findSub line "#mtime:".data with
  | some i => some ((line.drop (i + 7)).takeWhile notNl)
  | none => none

/-- ``re.compile(r'^([^`\n\r]*?)`\s*?$[\n\r]{1,2}(.*?)`\s*?$',
re.MULTILINE | re.DOTALL)`` — the multiline-block pattern, token by token
(`{1,2}` as a class plus a greedy optional of the same class; group 1 =
marks 0/1, group 2 = marks 2/3). -/
def mlPattern : List Tok :=
  [.bol, .mark 0, .cls notBtNlCr .lazyStar, .mark 1, .lit ['`'],
   .cls isPySpace .lazyStar, .eol, .cls isNlCr .one, .cls isNlCr .opt,
   .mark 2, .cls anyChar .lazyStar, .mark 3, .lit ['`'],
   .cls isPySpace .lazyStar, .eol]

/-- Replacement `r'\1multiline_shexe(\2)shexe'`. -/
def mlTpl : List Repl :=
  [.grp 0, .str "multiline_shexe(".data, .grp 1, .str ")shexe".data]

/-- `re.compile(r'multiline_shexe.*?shexe', re.DOTALL)`. -/
def mlFindPattern : List Tok :=
  [.lit "multiline_shexe".data, .cls anyChar .lazyStar, .lit "shexe".data]

/-- `re.compile(r'([\r\n]{1,2})')`. -/
def nlSubPattern : List Tok :=
  [.mark 0, .cls isNlCr .one, .cls isNlCr .opt, .mark 1]

/-- Replacement `r'; \\\1'`. -/
def nlSubTpl : List Repl :=
  [.str "; \\".data, .grp 0]

/-- `process_multilines` of the source: tag multiline blocks, then rewrite
every LF/CR run inside each tagged span to `; \` plus the run, by global
string replacement of the span's text. -/
def process_multilines (s : Str) : Str :=
  let s1 := subAll mlPattern mlTpl s
  let pairs := (finditer mlFindPattern s1).map
    (fun o => (o, subAll nlSubPattern nlSubTpl o))
  pairs.foldl (fun acc op => replaceAll acc op.1 op.2) s1

/-- ``re.compile(r'`(((.*?\\\s*?$)[\n\r]{1,2})+(.*$))', re.MULTILINE)`` —
the long-line pattern; the unreferenced inner groups 2–4 are not marked
(no backreference uses them), group 1 = marks 0/1. -/
def llPattern : List Tok :=
  [.lit ['`'], .mark 0,
   .plus [.cls notNl .lazyStar, .lit ['\\'], .cls isPySpace .lazyStar,
          .eol, .cls isNlCr .one, .cls isNlCr .opt],
   .cls notNl .star, .eol, .mark 1]

/-- Replacement `r'longline_shexe(\1)shexe'`. -/
def llTpl : List Repl :=
  [.str "longline_shexe(".data, .grp 0, .str ")shexe".data]

/-- `process_long_lines` of the source. -/
def process_long_lines (s : Str) : Str :=
  subAll llPattern llTpl s

/-- ``re.compile(r'`(.*?)`')`` — the both-delimited pattern. -/
def cbPattern : List Tok :=
  [.lit ['`'], .mark 0, .cls notNl .lazyStar, .mark 1, .lit ['`']]

/-- Replacement `r'both_shexe(\1)shexe'`. -/
def cbTpl : List Repl :=
  [.str "both_shexe(".data, .grp 0, .str ")shexe".data]

/-- `process_code_both` of the source. -/
def process_code_both (s : Str) : Str :=
  subAll cbPattern cbTpl s

/-- ``re.compile(r'^([^\n\r`]*)`([^`\n\r]+)$', re.MULTILINE)`` — the
start-only pattern (`+` of a class as the class once plus a greedy star). -/
def csPattern : List Tok :=
  [.bol, .mark 0, .cls notBtNlCr .star, .mark 1, .lit ['`'],
   .mark 2, .cls notBtNlCr .one, .cls notBtNlCr .star, .mark 3, .eol]

/-- Replacement `r'\1start_shexe(\2)shexe'`. -/
def csTpl : List Repl :=
  [.grp 0, .str "start_shexe(".data, .grp 1, .str ")shexe".data]

/-- `process_code_start` of the source. -/
def process_code_start (s : Str) : Str :=
  subAll csPattern csTpl s

/-- `re.compile(r'[a-z]*_shexe.*?shexe', re.DOTALL)` — the escape pass's
span pattern. -/
def escPattern : List Tok :=
  [.cls isLowerAZ .star, .lit "_shexe".data, .cls anyChar .lazyStar,
   .lit "shexe".data]

/-- The spans the escape pass iterates over. -/
def escapeMatches (s : Str) : List Str :=
  finditer escPattern s

/-- `original_str.replace('\'', '\\\'')`. -/
def escQuote (o : Str) : Str :=
  replaceAll o [qc] ['\\', qc]

/-- The `(original, processed)` replacement pairs the escape pass builds:
spans whose text contains a single quote, paired with their quote-escaped
form (spans without a quote are skipped). -/
def escapePairs (s : Str) : List (Str × Str) :=
  (escapeMatches s).filterMap
    (fun o => if containsSub o [qc] then some (o, escQuote o) else none)

/-- `escape` of the source: sequential whole-buffer replacement of each
pair. -/
def escape (s : Str) : Str :=
  (escapePairs s).foldl (fun acc op => replaceAll acc op.1 op.2) s

/-- `re.compile(r'[a-z]*_shexe\((.*?)\)shexe', re.MULTILINE | re.DOTALL)`
— the emitter pattern. -/
def itfPattern : List Tok :=
  [.cls isLowerAZ .star, .lit "_shexe(".data, .mark 0, .cls anyChar .lazyStar,
   .mark 1, .lit ")shexe".data]

/-- Replacement `r"exe('\1'.format(**dict(locals(), **globals())))"`. -/
def itfTpl : List Repl :=
  [.str ("exe(".data ++ [qc]), .grp 0,
   .str ([qc] ++ ".format(**dict(locals(), **globals())))".data)]

/-- `intermediate_to_final` of the source. -/
def intermediate_to_final (s : Str) : Str :=
  subAll itfPattern itfTpl s

/-! ### The compilation cache (`is_compilation_needed`) -/

/-- The error raised on a stamp-free artifact (`RuntimeError` in the
source; the spec's name for it is `CacheCorruptError`). -/
inductive CacheError
  | corrupt
  deriving DecidableEq

/-- `is_compilation_needed(in_filepath, out_filepath)`, with the
filesystem answers it consults passed explicitly: whether the artifact
exists, its first two lines (as read by `readline`), and `str>` of the
source's modification time.  Mirrors the source control flow: if the first
line carries a stamp it is compared and the second line is never read;
only when the first line carries no stamp is the second line read; if that
one carries no stamp either, the error is raised. -/
def is_compilation_needed (outExists : Bool) (line1 line2 : Str)
    (inMtimeStr : Str) : Except CacheError Bool :=
  if outExists = false then .ok true
  else
    match modTimeSearch (pyStrip line1) with
    | some m => if inMtimeStr = m then .ok false else .ok true
    | none =>
      match modTimeSearch (pyStrip line2) with
      | some m => if inMtimeStr = m then .ok false else .ok true
      | none => .error .corrupt

/-! ### Path translation (`translate_to_temp_path`) -/

/-- `translate_to_temp_path` on a POSIX-style single-root filesystem.
Paths are lists of components of a normalized absolute path;
`os.path.relpath(abspath, '/')` is then the component list itself, and
`os.path.join(tempfile.gettempdir(), 'shellpy', get_username(), rel)` is
list append below the temp root's components. -/
def translate_to_temp_path (tmpRoot : List String) (user : String)
    (comps : List String) : List String :=
  tmpRoot ++ ["shellpy", user] ++ comps

/-- Path-translation failure (the spec's `PathError`; in the source the
underlying `os.path.relpath` raises `ValueError` on a multi-root
filesystem, see the `TODO` at `preprocessor.py:51`). -/
inductive PathError
  | notAbsolutizable
  | noRootRelativeDecomposition
  deriving DecidableEq

/-- An absolute path on a multi-root filesystem: a drive plus components. -/
structure DrivePath where
  drive : String
  comps : List String
  deriving DecidableEq

/-- Modelled from the spec: `translate_to_temp_path` on a multi-root
filesystem, where `os.path.abspath`/`os.path.relpath` are outside `src/`.
An input that cannot be made absolute is `none`; a path whose drive
differs from the filesystem root's drive admits no root-relative
decomposition (`os.path.relpath` raises); otherwise translation is as on
the single-root filesystem. -/
def translate_to_temp_path_multiroot (rootDrive : String)
    (tmpRoot : List String) (user : String) :
    Option DrivePath → Except PathError (List String)
  | none => .error .notAbsolutizable
  | some p =>
    if p.drive = rootDrive then
      .ok (tmpRoot ++ ["shellpy", user] ++ p.comps)
    else .error .noRootRelativeDecomposition

/-! ### `preprocess_file` -/

/-- The filesystem answers `preprocess_file` consults. -/
structure Env where
  /-- Components of the absolute path of the `.spy` source file. -/
  srcComps : List String
  /-- Components of `tempfile.gettempdir()`. -/
  tmpRoot : List String
  /-- `getpass.getuser()`. -/
  user : String
  /-- `str(os.path.getmtime(in_filepath))`. -/
  srcMtimeStr : Str
  /-- `os.stat(in_filepath).st_mode`. -/
  srcMode : Nat
  /-- `os.path.exists(out_filepath)`. -/
  outExists : Bool
  /-- First line of the artifact, if read. -/
  outLine1 : Str
  /-- Second line of the artifact, if read. -/
  outLine2 : Str
  /-- `os.path.exists(os.path.dirname(out_filename))`. -/
  dirExists : Bool
  /-- Content of `header.tpl`. -/
  headerTpl : Str
  /-- Content of `header_root.tpl`. -/
  headerRootTpl : Str
  /-- Content of the source file. -/
  srcContent : Str

/-- The observable effects of one `preprocess_file` call. -/
structure Effects where
  /-- The returned artifact path. -/
  result : List String
  /-- Whether `is_compilation_needed` was evaluated. -/
  cacheConsulted : Bool
  /-- Whether the compilation pipeline ran. -/
  compiled : Bool
  /-- `mode` passed to `os.makedirs`, when it was called. -/
  madeDirsMode : Option Nat
  /-- Content written to the artifact, when a write happened. -/
  written : Option Str
  /-- The sequence of modes passed to `os.chmod` on the artifact. -/
  chmodCalls : List Nat
  deriving DecidableEq

/-- `stat.S_IEXEC` (owner execute bit, `0o100`). -/
def S_IEXEC : Nat :=
  0o100

/-- `get_header`: the selected template with its marker replaced by
`mtime:` plus the stringified source modification time. -/
def get_header (env : Env) (isRoot : Bool) : Str :=
  replaceAll (if isRoot then env.headerRootTpl else env.headerTpl)
    "{SOURCE_MODIFICATION_DATE}".data ("mtime:".data ++ env.srcMtimeStr)

/-- The four grammar passes, escaping and emission, in the source's
order. -/
def pipeline (s : Str) : Str :=
  intermediate_to_final (escape (process_code_start (process_code_both
    (process_long_lines (process_multilines s)))))

/-- Apply `f` to the last element of a list. -/
def mapLast (f : String → String) : List String → List String
  | [] => []
  | [x] => [f x]
  | x :: y :: xs => x :: mapLast f (y :: xs)

/-- `spy_file_pattern.sub(r"\1.py", in_filepath)` on a component path:
`.spy` contains no separator, so the suffix rewrite happens in the last
component. -/
def newFileComps (env : Env) : List String :=
  mapLast (fun c => String.mk (spySub c.data)) env.srcComps

/-- The effects of the compilation branch of `preprocess_file`
(lines 125–155 of the source): create the artifact's directory chain with
mode `0o700` when absent, write header plus pipeline output, chmod to the
source's mode, and chmod again with the execute bit added for a root
script. -/
def compileEffects (isRoot : Bool) (env : Env) (consulted : Bool) : Effects :=
  { result := translate_to_temp_path env.tmpRoot env.user (newFileComps env),
    cacheConsulted := consulted,
    compiled := true,
    madeDirsMode := if env.dirExists then none else some 0o700,
    written := some (get_header env isRoot ++ pipeline env.srcContent),
    chmodCalls :=
      if isRoot then [env.srcMode, env.srcMode ||| S_IEXEC]
      else [env.srcMode] }

/-- `preprocess_file(in_filepath, is_root_script)`.  The cache check is
guarded by `not is_root_script and not is_compilation_needed(...)` — with
short-circuit `and`, a root script never evaluates the cache check. -/
def preprocess_file (isRoot : Bool) (env : Env) : Except CacheError Effects :=
  let outName := translate_to_temp_path env.tmpRoot env.user (newFileComps env)
  if isRoot then .ok (compileEffects true env false)
  else
    match is_compilation_needed env.outExists env.outLine1 env.outLine2
        env.srcMtimeStr with
    | .error e => .error e
    | .ok false =>
      .ok { result := outName, cacheConsulted := true, compiled := false,
            madeDirsMode := none, written := none, chmodCalls := [] }
    | .ok true => .ok (compileEffects false env true)

/-! ### Runtime scope resolution of the emitted call

The emitter rewrites every placeholder into
`exe('<raw>'.format(**dict(locals(), **globals())))`; the mapping passed
to `format` is modelled here. -/

/-- Association-list lookup, first binding wins. -/
def lookupA (n : String) : List (String × Str) → Option Str
  | [] => none
  | (k, v) :: rest => if k = n then some v else lookupA n rest

/-- Name lookup in `dict(locals(), **globals())`: a copy of the locals
mapping updated with every binding of the globals mapping, so on a name
bound in both scopes the **global** binding's value is the one retained. -/
def resolveName (locs globs : List (String × Str)) (n : String) : Option Str :=
  match lookupA n globs with
  | some v => some v
  | none => lookupA n locs

/-- `\x7b`. -/
def lbrace : Char :=
  Char.ofNat 123

/-- `\x7d`. -/
def rbrace : Char :=
  Char.ofNat 125

/-- Fuel-indexed interpolation scan (each step consumes at least one
character, so fuel `s.length + 1` is always sufficient). -/
def pyFormatF (env : String → Option Str) : Nat → Str → Option Str
  | 0, _ => none
  | _ + 1, [] => some []
  | fuel + 1, c :: rest =>
    if c = lbrace then
      let name := rest.takeWhile (fun d => d ≠ rbrace)
      match rest.drop name.length with
      | d :: tail =>
        if d = rbrace then
          match env (String.mk name) with
          | some v => (pyFormatF env fuel tail).map (fun t => v ++ t)
          | none => none
        else none
      | [] => none
    else (pyFormatF env fuel rest).map (fun t => c :: t)

/-- Minimal model of `str.format`'s name interpolation on the emitted
string literal: each brace-delimited `name` token is replaced by the value
the mapping gives it; an unbound name fails (Python raises `KeyError`),
and text outside tokens is copied. -/
def pyFormat (env : String → Option Str) (s : Str) : Option Str :=
  pyFormatF env (s.length + 1) s

/-- Content lines joined with a single LF (the body of a multiline
block). -/
def joinNl : List Str → Str
  | [] => []
  | [l] => l
  | l :: l2 :: ls => l ++ '\n' :: joinNl (l2 :: ls)

/-! ### Single-quote escaping, characterized -/

/-- Structural characterization of
`original_str.replace('\'', '\\\'')`: each single quote becomes
backslash-quote, everything else is copied. -/
def escSpec : Str → Str
  | [] => []
  | c :: r => if c = qc then '\\' :: qc :: escSpec r else c :: escSpec r

/-- Scan the body of a single-quoted Python string literal (text after the
opening quote): a backslash consumes the next character, an unescaped
quote terminates, returning the text after the literal; running out of
characters fails. -/
def sqTail : Str → Option Str
  | [] => none
  | c :: r =>
    if c = qc then some r
    else if c = '\\' then
      match r with
      | [] => none
      | _ :: r' => sqTail r'
    else sqTail r

/-- Is `s` exactly one valid single-quoted Python string literal? -/
def validSQ (s : Str) : Bool :=
  match s with
  | c :: r => c = qc && sqTail r == some []
  | [] => false

/-! ### Concrete inputs used by witnesses and counterexamples -/

/-- The adversarial escape-pass buffer: a quoted span whose text occurs a
second time, shifted, inside later text. -/
def cB5 : Str :=
  "a_shexe(".data ++ [qc] ++ ")shexe#c_shexe(a_shexe(".data ++ [qc] ++ ")shexe".data

/-- What `escape` actually produces on `cB5`. -/
def cB5actual : Str :=
  "a_shexe(".data ++ ['\\', qc] ++ ")shexe#c_shexe(a_shexe(".data ++
    ['\\', qc] ++ ")shexe".data

/-- What the claim predicts on `cB5`: the quoted span escaped, the
quote-free span byte-identical, text outside the two spans untouched. -/
def cB5predicted : Str :=
  "a_shexe(".data ++ ['\\', qc] ++ ")shexe#c_shexe(a_shexe(".data ++
    [qc] ++ ")shexe".data

/-- A one-span buffer for the C5 witness. -/
def wB5 : Str :=
  "x = both_shexe(echo ".data ++ [qc] ++ "hi".data ++ [qc] ++ ")shexe".data

/-- The single replacement pair the escape pass schedules on `wB5`. -/
def wPair5 : Str × Str :=
  ("both_shexe(echo ".data ++ [qc] ++ "hi".data ++ [qc] ++ ")shexe".data,
   "both_shexe(echo ".data ++ ['\\', qc] ++ "hi".data ++ ['\\', qc] ++
     ")shexe".data)

/-- A source file `/home/b.spy` with everything else trivial. -/
def envC8 : Env :=
  { srcComps := ["home", "b.spy"], tmpRoot := ["tmp"], user := "u",
    srcMtimeStr := [], srcMode := 0o644, outExists := false, outLine1 := [],
    outLine2 := [], dirExists := true, headerTpl := [], headerRootTpl := [],
    srcContent := [] }

/-- The effects of compiling `envC8` as a root script. -/
def effC8 : Effects :=
  compileEffects true envC8 false

/-- `envC8` with the artifact's parent directory absent. -/
def envC10 : Env :=
  { envC8 with dirExists := false }

/-- The effects of compiling `envC10` as a root script. -/
def effC10 : Effects :=
  compileEffects true envC10 false

/-! ## Claims -/

/-- **C4.** Path translation is injective and deterministic: for a fixed
user identity and temp root, distinct absolute source paths translate to
distinct sandbox paths; translating the same path twice yields identical
results; the result has the shape
`<temp root>/shellpy/<user>/<path relative to the filesystem root>`; and
two different user identities never produce a shared sandbox path. -/
theorem C4_translate_props :
    (∀ (tmpRoot : List String) (user : String) (p q : List String),
      translate_to_temp_path tmpRoot user p = translate_to_temp_path tmpRoot user q →
        p = q) ∧
    (∀ (tmpRoot : List String) (user : String) (p : List String),
      translate_to_temp_path tmpRoot user p = translate_to_temp_path tmpRoot user p) ∧
    (∀ (tmpRoot : List String) (user : String) (p : List String),
      translate_to_temp_path tmpRoot user p = tmpRoot ++ ["shellpy", user] ++ p) ∧
    (∀ (tmpRoot : List String) (u1 u2 : String) (p1 p2 : List String), u1 ≠ u2 →
      translate_to_temp_path tmpRoot u1 p1 ≠ translate_to_temp_path tmpRoot u2 p2) := by
  refine ⟨fun tmpRoot user p q h => ?_, fun _ _ _ => rfl, fun _ _ _ => rfl,
    fun tmpRoot u1 u2 p1 p2 hne h => ?_⟩
  · exact List.append_cancel_left h
  · apply hne
    have h2 : tmpRoot ++ ("shellpy" :: u1 :: p1) = tmpRoot ++ ("shellpy" :: u2 :: p2) := by
      simpa [translate_to_temp_path, List.append_assoc] using h
    have h3 := List.append_cancel_left h2
    simp only [List.cons.injEq] at h3
    exact h3.2.1

/-- Witness for C4 at concrete inputs: users `alice` and `bob` give
distinct sandbox paths for the same source path. -/
theorem C4_translate_props_witness :
    translate_to_temp_path ["tmp"] "alice" ["a", "b.py"] ≠
      translate_to_temp_path ["tmp"] "bob" ["a", "b.py"] :=
  C4_translate_props.2.2.2 ["tmp"] "alice" "bob" ["a", "b.py"] ["a", "b.py"]
    (by decide)

/-- **C7.** An input that cannot be made absolute, or admits no
decomposition relative to the filesystem root (a different drive on a
multi-root filesystem), makes path translation fail with a `PathError`
instead of returning a sandbox path. -/
theorem C7_multiroot_path_error :
    (∀ (rootDrive : String) (tmpRoot : List String) (user : String),
      translate_to_temp_path_multiroot rootDrive tmpRoot user none =
        .error .notAbsolutizable) ∧
    (∀ (rootDrive : String) (tmpRoot : List String) (user : String)
        (p : DrivePath), p.drive ≠ rootDrive →
      translate_to_temp_path_multiroot rootDrive tmpRoot user (some p) =
        .error .noRootRelativeDecomposition) := by
  refine ⟨fun _ _ _ => rfl, fun rootDrive tmpRoot user p h => ?_⟩
  simp [translate_to_temp_path_multiroot, h]

/-- Witness for C7 at a concrete input: a path on drive `D:` with the
filesystem root on `C:`. -/
theorem C7_multiroot_path_error_witness :
    translate_to_temp_path_multiroot "C:" ["tmp"] "u"
        (some { drive := "D:", comps := ["x.spy"] }) =
      .error .noRootRelativeDecomposition :=
  C7_multiroot_path_error.2 "C:" ["tmp"] "u" { drive := "D:", comps := ["x.spy"] }
    (by decide)

/-- **C3.** A root-flagged source file runs the full compilation pipeline
(header composition, the four grammar passes, escaping, emission, artifact
write) and never consults the compilation cache, whatever the artifact
state: for every environment, `preprocess_file` with the root flag
produces the compile-branch effects with `cacheConsulted = false`. -/
theorem C3_root_always_recompiles (env : Env) :
    preprocess_file true env =
      .ok { result := translate_to_temp_path env.tmpRoot env.user (newFileComps env),
            cacheConsulted := false,
            compiled := true,
            madeDirsMode := if env.dirExists then none else some 0o700,
            written := some (get_header env true ++ pipeline env.srcContent),
            chmodCalls := [env.srcMode, env.srcMode ||| S_IEXEC] } :=
  rfl

/-- **C2 counterexample.** The claim says a correct stamp on *either* of
the first two lines is a cache hit.  With a mismatched stamp on the first
line and the correct stamp on the second, the code returns `true`
(recompile) without ever reading the second line — yet the second line
carries a stamp byte-equal to the source mtime string. -/
theorem C2_counterexample :
    is_compilation_needed true "#mtime:999".data "#mtime:123".data "123".data =
      .ok true ∧
    modTimeSearch (pyStrip "#mtime:123".data) = some "123".data := by
  constructor
  · rfl
  · rfl

/-- **C2 amended.** `is_compilation_needed` returns true when no artifact
exists.  When the artifact exists, it returns false iff the *first* line
carries a stamp byte-equal to the source's mtime string, or the first line
carries no stamp at all and the second line carries a byte-equal stamp (a
stamp-bearing first line with a mismatched stamp returns true without
consulting the second line); it raises the corrupt-cache error iff neither
of the first two lines carries a stamp marker. -/
theorem C2_cache_characterization (l1 l2 ms : Str) :
    (is_compilation_needed false l1 l2 ms = .ok true) ∧
    (is_compilation_needed true l1 l2 ms = .ok false ↔
      (modTimeSearch (pyStrip l1) = some ms ∨
        (modTimeSearch (pyStrip l1) = none ∧ modTimeSearch (pyStrip l2) = some ms))) ∧
    (is_compilation_needed true l1 l2 ms = .error .corrupt ↔
      (modTimeSearch (pyStrip l1) = none ∧ modTimeSearch (pyStrip l2) = none)) := by
  refine ⟨rfl, ?_, ?_⟩ <;>
    cases h1 : modTimeSearch (pyStrip l1) with
    | some st =>
      by_cases hms : ms = st <;>
        simp [is_compilation_needed, h1, hms, eq_comm]
    | none =>
      cases h2 : modTimeSearch (pyStrip l2) with
      | some st =>
        by_cases hms : ms = st <;>
          simp [is_compilation_needed, h1, h2, hms, eq_comm]
      | none =>
        simp [is_compilation_needed, h1, h2]

/-- **C1 counterexample.** The claim says locals take precedence over
globals on a name collision.  In the emitted mapping
`dict(locals(), **globals())` the update with `**globals()` overwrites the
local binding: with `x` bound locally to `1` and globally to `2`, the
mapping resolves `x` to the global value `2`, not the local value `1`. -/
theorem C1_counterexample :
    resolveName [("x", "1".data)] [("x", "2".data)] "x" = some "2".data ∧
    some "2".data ≠ some "1".data := by
  constructor
  · rfl
  · decide

/-- **C8 counterexample.** The claim says the artifact is written at the
sandbox translation of the source's *own* path.  For source
`/home/b.spy` the code first rewrites the `.spy` suffix to `.py` and
translates the renamed path: the artifact lands at
`tmp/shellpy/u/home/b.py`, not at the translation of `/home/b.spy`. -/
theorem C8_counterexample :
    (preprocess_file true envC8).map Effects.result =
      .ok ["tmp", "shellpy", "u", "home", "b.py"] ∧
    translate_to_temp_path envC8.tmpRoot envC8.user envC8.srcComps =
      ["tmp", "shellpy", "u", "home", "b.spy"] ∧
    ["tmp", "shellpy", "u", "home", "b.py"] ≠
      ["tmp", "shellpy", "u", "home", "b.spy"] := by
  refine ⟨rfl, rfl, by decide⟩

/-- **C8 amended.** Whenever `preprocess_file` compiles a source file, the
artifact is written at the sandbox translation of the source path with its
`.spy` suffix rewritten to `.py`; the written content is the header plus
the pipeline output; and the last permission change applied to the
artifact is the source's permission bits, with the execute bit added when
the source is root-flagged. -/
theorem C8_artifact_location_and_mode (isRoot : Bool) (env : Env)
    (eff : Effects) (h : preprocess_file isRoot env = .ok eff)
    (hc : eff.compiled = true) :
    eff.result = translate_to_temp_path env.tmpRoot env.user (newFileComps env) ∧
    eff.written = some (get_header env isRoot ++ pipeline env.srcContent) ∧
    eff.chmodCalls.getLast? =
      some (if isRoot then env.srcMode ||| S_IEXEC else env.srcMode) := by
  cases isRoot with
  | true =>
    have h' : eff = compileEffects true env false := by
      simpa [preprocess_file] using h.symm
    subst h'
    refine ⟨rfl, rfl, rfl⟩
  | false =>
    rw [preprocess_file] at h
    simp only [Bool.false_eq_true, if_false] at h
    cases hcc : is_compilation_needed env.outExists env.outLine1 env.outLine2
        env.srcMtimeStr with
    | error e => rw [hcc] at h; exact absurd h (by simp)
    | ok b =>
      cases b with
      | false =>
        rw [hcc] at h
        simp only [Except.ok.injEq] at h
        rw [← h] at hc
        exact absurd hc (by simp)
      | true =>
        rw [hcc] at h
        simp only [Except.ok.injEq] at h
        subst h
        refine ⟨rfl, rfl, rfl⟩

/-- Witness for C8 amended at a concrete input: compiling `envC8` as a
root script. -/
theorem C8_artifact_location_and_mode_witness :
    effC8.result = translate_to_temp_path envC8.tmpRoot envC8.user (newFileComps envC8) ∧
    effC8.written = some (get_header envC8 true ++ pipeline envC8.srcContent) ∧
    effC8.chmodCalls.getLast? =
      some (if true then envC8.srcMode ||| S_IEXEC else envC8.srcMode) :=
  C8_artifact_location_and_mode true envC8 effC8 rfl rfl

/-- **C10.** Whenever `preprocess_file` compiles and the artifact's parent
directory does not exist, the directory chain is created with mode
`0o700`: full owner bits and no group or other bits, so the sandbox
directories are accessible only to the creating user. -/
theorem C10_mkdir_mode (isRoot : Bool) (env : Env) (eff : Effects)
    (h : preprocess_file isRoot env = .ok eff) (hc : eff.compiled = true)
    (hd : env.dirExists = false) :
    eff.madeDirsMode = some 0o700 ∧ 0o700 &&& 0o077 = 0 ∧
      0o700 &&& 0o700 = 0o700 := by
  refine ⟨?_, by decide, by decide⟩
  cases isRoot with
  | true =>
    have h' : eff = compileEffects true env false := by
      simpa [preprocess_file] using h.symm
    subst h'
    simp [compileEffects, hd]
  | false =>
    rw [preprocess_file] at h
    simp only [Bool.false_eq_true, if_false] at h
    cases hcc : is_compilation_needed env.outExists env.outLine1 env.outLine2
        env.srcMtimeStr with
    | error e => rw [hcc] at h; exact absurd h (by simp)
    | ok b =>
      cases b with
      | false =>
        rw [hcc] at h
        simp only [Except.ok.injEq] at h
        rw [← h] at hc
        exact absurd hc (by simp)
      | true =>
        rw [hcc] at h
        simp only [Except.ok.injEq] at h
        subst h
        simp [compileEffects, hd]

/-- Witness for C10 at a concrete input: compiling `envC10`, whose
artifact directory is absent, as a root script. -/
theorem C10_mkdir_mode_witness :
    effC10.madeDirsMode = some 0o700 ∧ 0o700 &&& 0o077 = 0 ∧
      0o700 &&& 0o700 = 0o700 :=
  C10_mkdir_mode true envC10 effC10 rfl rfl rfl

/-! ### Escaping lemmas -/

theorem replGo_quote_eq_escSpec (fuel : Nat) (o : Str) (h : o.length ≤ fuel) :
    replGo [qc] ['\\', qc] fuel o = escSpec o := by
  induction fuel generalizing o with
  | zero =>
    cases o with
    | nil => rfl
    | cons c r => simp at h
  | succ f ih =>
    cases o with
    | nil => rfl
    | cons c r =>
      simp only [List.length_cons] at h
      by_cases hc : c = qc
      · subst hc
        have hpre : [qc].isPrefixOf (qc :: r) = true := by
          simp [List.isPrefixOf]
        simp only [replGo, escSpec, hpre, if_pos rfl]
        simp [ih r (by omega)]
      · have hpre : [qc].isPrefixOf (c :: r) = false := by
          simp [List.isPrefixOf]
          exact fun hh => absurd hh.symm hc
        simp only [replGo, escSpec, hpre]
        simp [hc, ih r (by omega)]

theorem escQuote_eq_escSpec (o : Str) : escQuote o = escSpec o :=
  replGo_quote_eq_escSpec o.length o le_rfl

theorem escSpec_cons_qc (r : Str) :
    escSpec (qc :: r) = '\\' :: qc :: escSpec r := by
  rw [escSpec, if_pos rfl]

theorem escSpec_cons_other {c : Char} (r : Str) (hc : c ≠ qc) :
    escSpec (c :: r) = c :: escSpec r := by
  rw [escSpec, if_neg hc]

theorem qc_not_isPrefixOf_escSpec (o : Str) :
    [qc].isPrefixOf (escSpec o) = false := by
  cases o with
  | nil => rfl
  | cons c r =>
    by_cases hc : c = qc
    · subst hc
      rw [escSpec_cons_qc]
      have hne : (qc == '\\') = false := by decide
      simp [List.isPrefixOf, hne]
    · rw [escSpec_cons_other r hc]
      have hne : (qc == c) = false := beq_eq_false_iff_ne.mpr (Ne.symm hc)
      simp [List.isPrefixOf, hne]

theorem countOcc_escSpec (o : Str) :
    countOcc ['\\', qc] (escSpec o) = countOcc [qc] o := by
  induction o with
  | nil => rfl
  | cons c r ih =>
    by_cases hc : c = qc
    · subst hc
      have h1 : (['\\', qc]).isPrefixOf ('\\' :: qc :: escSpec r) = true := by
        simp [List.isPrefixOf]
      have h2 : (['\\', qc]).isPrefixOf (qc :: escSpec r) = false := by
        have hne : ('\\' == qc) = false := by decide
        simp [List.isPrefixOf, hne]
      have h3 : ([qc]).isPrefixOf (qc :: r) = true := by
        simp [List.isPrefixOf]
      rw [escSpec_cons_qc]
      simp [countOcc, h1, h2, h3, ih]
    · have h1 : (['\\', qc]).isPrefixOf (c :: escSpec r) = false := by
        by_cases hb : c = '\\'
        · subst hb
          have := qc_not_isPrefixOf_escSpec r
          simpa [List.isPrefixOf] using this
        · have hne : ('\\' == c) = false := beq_eq_false_iff_ne.mpr (Ne.symm hb)
          simp [List.isPrefixOf, hne]
      have h2 : ([qc]).isPrefixOf (c :: r) = false := by
        have hne : (qc == c) = false := beq_eq_false_iff_ne.mpr (Ne.symm hc)
        simp [List.isPrefixOf, hne]
      rw [escSpec_cons_other r hc]
      simp [countOcc, h1, h2, ih]

theorem sqTail_cons_other {c : Char} (X : Str) (hq : c ≠ qc) (hb : c ≠ '\\') :
    sqTail (c :: X) = sqTail X := by
  rw [sqTail.eq_def]
  simp [hq, hb]

theorem sqTail_cons_backslash (d : Char) (X : Str) :
    sqTail ('\\' :: d :: X) = sqTail X := by
  rw [sqTail.eq_def]
  have hq : ¬ ('\\' : Char) = qc := by decide
  simp [hq]

theorem sqTail_escSpec_append (o t : Str) (h : ∀ c ∈ o, c ≠ '\\') :
    sqTail (escSpec o ++ t) = sqTail t := by
  induction o with
  | nil => rfl
  | cons c r ih =>
    have hr : ∀ d ∈ r, d ≠ '\\' := fun d hd => h d (List.mem_cons_of_mem c hd)
    by_cases hc : c = qc
    · subst hc
      rw [escSpec_cons_qc, List.cons_append, List.cons_append,
        sqTail_cons_backslash]
      exact ih hr
    · have hb : c ≠ '\\' := h c (List.mem_cons_self c r)
      rw [escSpec_cons_other r hc, List.cons_append, sqTail_cons_other _ hc hb]
      exact ih hr

theorem validSQ_escSpec (o : Str) (h : ∀ c ∈ o, c ≠ '\\') :
    validSQ ([qc] ++ escSpec o ++ [qc]) = true := by
  have ht : sqTail (escSpec o ++ [qc]) = some [] := by
    rw [sqTail_escSpec_append o [qc] h]
    simp [sqTail]
  simp [validSQ, ht]

/-- **C5 counterexample.** The escape pass substitutes by *global* string
replacement of each quoted span's text over the whole buffer.  In `cB5`
the spans found are `a_shexe(')shexe` (quoted, positions 0–14) and
`c_shexe(a_shexe` (quote-free, positions 16–30); the suffix `(')shexe`
at positions 31–38 lies outside both spans, yet its quote is escaped in
the output, because it sits inside a second, shifted occurrence of the
quoted span's text.  So "text outside placeholder spans is not modified"
fails. -/
theorem C5_counterexample :
    escape cB5 = cB5actual ∧
    escapeMatches cB5 =
      ["a_shexe(".data ++ [qc] ++ ")shexe".data, "c_shexe(a_shexe".data] ∧
    slice cB5 31 39 = "(".data ++ [qc] ++ ")shexe".data ∧
    slice cB5actual 32 41 = "(".data ++ ['\\', qc] ++ ")shexe".data ∧
    cB5actual ≠ cB5predicted := by
  refine ⟨by decide, by decide, by decide, by decide, by decide⟩

/-- **C5 amended.** For every replacement pair the Escaper schedules: the
span's text contains a quote (quote-free spans have no replacement
scheduled), the replacement is the span text with each single quote
escaped, it carries exactly as many escaped-quote sequences as the span
had quotes, and — provided the span text contains no backslash of its own
— it parses as a valid single-quoted literal once wrapped.  The
substitution itself is global string replacement, so text outside spans
equal to a quoted span's text is also rewritten (see the
counterexample). -/
theorem C5_escape_schedule (buffer : Str) :
    (∀ op ∈ escapePairs buffer,
      containsSub op.1 [qc] = true ∧
      op.2 = escSpec op.1 ∧
      countOcc ['\\', qc] op.2 = countOcc [qc] op.1 ∧
      ((∀ c ∈ op.1, c ≠ '\\') → validSQ ([qc] ++ op.2 ++ [qc]) = true)) ∧
    (∀ o ∈ escapeMatches buffer, containsSub o [qc] = false →
      ∀ p, (o, p) ∉ escapePairs buffer) := by
  constructor
  · intro op hop
    rw [escapePairs, List.mem_filterMap] at hop
    obtain ⟨o, _, hf⟩ := hop
    by_cases hq : containsSub o [qc] = true
    · rw [if_pos hq] at hf
      cases hf
      refine ⟨hq, escQuote_eq_escSpec o, ?_, ?_⟩
      · rw [escQuote_eq_escSpec o]
        exact countOcc_escSpec o
      · intro hnb
        rw [escQuote_eq_escSpec o]
        exact validSQ_escSpec o hnb
    · rw [if_neg hq] at hf
      cases hf
  · intro o _ hq p hmem
    rw [escapePairs, List.mem_filterMap] at hmem
    obtain ⟨o', _, hf⟩ := hmem
    by_cases hq' : containsSub o' [qc] = true
    · rw [if_pos hq'] at hf
      cases hf
      rw [hq] at hq'
      cases hq'
    · rw [if_neg hq'] at hf
      cases hf

/-- Witness for C5 amended at a concrete buffer: the single pair
scheduled on `wB5`. -/
theorem C5_escape_schedule_witness :
    containsSub wPair5.1 [qc] = true ∧ wPair5.2 = escSpec wPair5.1 ∧
    countOcc ['\\', qc] wPair5.2 = countOcc [qc] wPair5.1 ∧
    validSQ ([qc] ++ wPair5.2 ++ [qc]) = true := by
  have h := (C5_escape_schedule wB5).1 wPair5 (by decide)
  exact ⟨h.1, h.2.1, h.2.2.1, h.2.2.2 (by decide)⟩

/-- **C6 counterexample.** For the multiline block with content lines
`echo 1` and `ls -l`, the claim predicts raw text
`; \`⏎`echo 1; \`⏎`ls -l`.  The capture actually spans from just after
the opening line's newline through the final content line's trailing
newline, so the raw text is `echo 1; \`⏎`ls -l; \`⏎ — each content line
*suffixed* by the continuation, with no leading continuation. -/
theorem C6_counterexample :
    process_multilines "f = `\necho 1\nls -l\n`\n".data =
      "f = multiline_shexe(echo 1; \\\nls -l; \\\n)shexe\n".data ∧
    "f = multiline_shexe(echo 1; \\\nls -l; \\\n)shexe\n".data ≠
      "f = multiline_shexe(; \\\necho 1; \\\nls -l)shexe\n".data := by
  refine ⟨by decide, by decide⟩

/-- **C9 counterexample.** A line ending in the quote mark (with nothing
after it) contains a quote mark with no matching closing mark, so the
claim requires it to be rewritten into a tagged placeholder; the pattern's
`[^`\n\r]+` needs at least one remainder character, so the line passes
through unchanged and no placeholder is emitted. -/
theorem C9_counterexample :
    process_code_start "x = `".data = "x = `".data ∧
    containsSub "x = `".data "start_shexe".data = false := by
  refine ⟨by decide, by decide⟩

/-! ### Engine lemmas -/

theorem countRunGo_all (p : Char → Bool) (xs : Str)
    (h : ∀ c ∈ xs, p c = true) : countRun.go p xs = xs.length := by
  induction xs with
  | nil => rfl
  | cons c r ih =>
    have hc : p c = true := h c (List.mem_cons_self c r)
    simp [countRun.go, hc, ih (fun d hd => h d (List.mem_cons_of_mem c hd))]

theorem countRunGo_stop (p : Char → Bool) (xs : Str) (y : Char) (ys : Str)
    (h : ∀ c ∈ xs, p c = true) (hy : p y = false) :
    countRun.go p (xs ++ y :: ys) = xs.length := by
  induction xs with
  | nil => simp [countRun.go, hy]
  | cons c r ih =>
    have hc : p c = true := h c (List.mem_cons_self c r)
    simp [countRun.go, hc, ih (fun d hd => h d (List.mem_cons_of_mem c hd))]

theorem head?_flatMap_of_ne {α β : Type} (a : α) (as : List α) (f : α → List β)
    (h : f a ≠ []) : ((a :: as).flatMap f).head? = (f a).head? := by
  rw [List.flatMap_cons, List.head?_append]
  cases hfa : f a with
  | nil => exact absurd hfa h
  | cons x xs => simp

theorem flatMap_eq_nil_of {α β : Type} (l : List α) (f : α → List β)
    (h : ∀ x ∈ l, f x = []) : l.flatMap f = [] := by
  induction l with
  | nil => rfl
  | cons a as ih =>
    rw [List.flatMap_cons, h a (List.mem_cons_self a as), List.nil_append]
    exact ih (fun x hx => h x (List.mem_cons_of_mem a hx))

theorem searchFromF_none_of (toks : List Tok) (s : Str) (fuel pos : Nat)
    (h : ∀ q, pos ≤ q → q ≤ s.length → matchAt toks s q = none) :
    searchFromF toks s fuel pos = none := by
  induction fuel generalizing pos with
  | zero => rfl
  | succ f ih =>
    rw [searchFromF]
    by_cases hple : pos ≤ s.length
    · rw [if_pos hple, h pos le_rfl hple]
      exact ih (pos + 1) (fun q hq hqs => h q (by omega) hqs)
    · rw [if_neg hple]

theorem subAllF_of_searchFrom_none (toks : List Tok) (tpl : List Repl)
    (s : Str) (fuel pos : Nat) (h : searchFrom toks s pos = none) :
    subAllF toks tpl s fuel pos = s.drop pos := by
  cases fuel with
  | zero => rfl
  | succ f => rw [subAllF, h]

theorem subAllF_succ_some (toks : List Tok) (tpl : List Repl) (s : Str)
    (fuel pos st e : Nat) (m : Marks)
    (h : searchFrom toks s pos = some (st, e, m)) :
    subAllF toks tpl s (fuel + 1) pos =
      slice s pos st ++ buildRepl s m tpl ++
        (if st < e then subAllF toks tpl s fuel e
         else
          match s[st]? with
          | some c => c :: subAllF toks tpl s fuel (st + 1)
          | none => []) := by
  rw [subAllF, h]

theorem clsAdvance_star_eq (p : Char → Bool) (s : Str) (pos : Nat) :
    clsAdvance p .star s pos =
      (pos + countRun p s pos) ::
        ((List.range (countRun p s pos)).reverse).map (pos + ·) := by
  simp [clsAdvance, List.range_succ]

theorem notBtNlCr_ne_nl {c : Char} (h : notBtNlCr c = true) : c ≠ '\n' := by
  intro hc
  subst hc
  exact absurd h (by decide)

/-! ### The start-only pass on a well-formed line -/

theorem csPattern_matchAt_zero (pre rt : Str) (r0 : Char)
    (hpre : ∀ c ∈ pre, notBtNlCr c = true)
    (hr : ∀ c ∈ r0 :: rt, notBtNlCr c = true) :
    matchAt csPattern (pre ++ '`' :: r0 :: rt) 0 =
      some ((pre ++ '`' :: r0 :: rt).length,
        [(0, 0), (1, pre.length), (2, pre.length + 1),
         (3, (pre ++ '`' :: r0 :: rt).length)]) := by
  have hbt : notBtNlCr '`' = false := by decide
  have hlen : (pre ++ '`' :: r0 :: rt).length = pre.length + 1 + 1 + rt.length := by
    simp [List.length_append]
    omega
  have hdropL : (pre ++ '`' :: r0 :: rt).drop pre.length = '`' :: r0 :: rt :=
    List.drop_left pre _
  have hdropL1 : (pre ++ '`' :: r0 :: rt).drop (pre.length + 1) = r0 :: rt := by
    rw [← List.drop_drop, hdropL]
    rfl
  have hdropL2 : (pre ++ '`' :: r0 :: rt).drop (pre.length + 1 + 1) = rt := by
    rw [← List.drop_drop, hdropL1]
    rfl
  have hrun1 : countRun notBtNlCr (pre ++ '`' :: r0 :: rt) (pre.length + 1) =
      rt.length + 1 := by
    rw [countRun, hdropL1, countRunGo_all notBtNlCr (r0 :: rt) hr]
    simp
  have hrun2 : countRun notBtNlCr (pre ++ '`' :: r0 :: rt) (pre.length + 1 + 1) =
      rt.length := by
    rw [countRun, hdropL2,
      countRunGo_all notBtNlCr rt (fun d hd => hr d (List.mem_cons_of_mem r0 hd))]
  have hstart : startsWithAt (pre ++ '`' :: r0 :: rt) pre.length ['`'] = true := by
    rw [startsWithAt, hdropL]
    simp [List.isPrefixOf]
  -- the inner `[^`\n\r]*` followed by `$`: only the full-length advance
  -- reaches the end of the buffer, every shorter advance sits before a
  -- non-newline character, so `$` fails there
  have hT6 : matchToks (pre ++ '`' :: r0 :: rt)
      [.cls notBtNlCr .star, .mark 3, .eol] (pre.length + 1 + 1) =
      [((pre ++ '`' :: r0 :: rt).length,
        [(3, (pre ++ '`' :: r0 :: rt).length)])] := by
    rw [matchToks, clsAdvance_star_eq, hrun2]
    have hend : pre.length + 1 + 1 + rt.length = (pre ++ '`' :: r0 :: rt).length := by
      omega
    rw [List.flatMap_cons]
    have hfull : matchToks (pre ++ '`' :: r0 :: rt) [.mark 3, .eol]
        (pre.length + 1 + 1 + rt.length) =
        [((pre ++ '`' :: r0 :: rt).length,
          [(3, (pre ++ '`' :: r0 :: rt).length)])] := by
      rw [hend, matchToks, matchToks]
      have he : atEol (pre ++ '`' :: r0 :: rt) (pre ++ '`' :: r0 :: rt).length = true := by
        simp [atEol]
      rw [he]
      simp [matchToks]
    have hrestnil : (((List.range rt.length).reverse).map (pre.length + 1 + 1 + ·)).flatMap
        (fun pos' => matchToks (pre ++ '`' :: r0 :: rt) [.mark 3, .eol] pos') = [] := by
      apply flatMap_eq_nil_of
      intro q hq
      rw [List.mem_map] at hq
      obtain ⟨k, hk, hkq⟩ := hq
      rw [List.mem_reverse, List.mem_range] at hk
      have hqe : q ≠ (pre ++ '`' :: r0 :: rt).length := by omega
      have hchar : (pre ++ '`' :: r0 :: rt)[q]? = some rt[k] := by
        have h1 := List.getElem?_drop (pre ++ '`' :: r0 :: rt) (pre.length + 1 + 1) k
        rw [hdropL2] at h1
        rw [← hkq, ← h1, List.getElem?_eq_getElem hk]
      have hne : rt[k] ≠ '\n' :=
        notBtNlCr_ne_nl (hr rt[k] (List.mem_cons_of_mem r0 (List.getElem_mem hk)))
      have he : atEol (pre ++ '`' :: r0 :: rt) q = false := by
        simp [atEol, hqe, hchar, hne]
        omega
      rw [matchToks, matchToks, he]
      simp
    rw [hfull, hrestnil]
    simp
  -- chain through `mark 1`, the literal backtick, `mark 2`, and the
  -- mandatory first remainder character
  have hone : clsAdvance notBtNlCr .one (pre ++ '`' :: r0 :: rt)
      (pre.length + 1) = [pre.length + 1 + 1] := by
    simp [clsAdvance, hrun1]
  have hA : matchToks (pre ++ '`' :: r0 :: rt)
      [.cls notBtNlCr .one, .cls notBtNlCr .star, .mark 3, .eol]
      (pre.length + 1) =
      [((pre ++ '`' :: r0 :: rt).length,
        [(3, (pre ++ '`' :: r0 :: rt).length)])] := by
    rw [matchToks, hone, List.flatMap_cons, List.flatMap_nil, List.append_nil,
      hT6]
  have hB : matchToks (pre ++ '`' :: r0 :: rt)
      [.mark 2, .cls notBtNlCr .one, .cls notBtNlCr .star, .mark 3, .eol]
      (pre.length + 1) =
      [((pre ++ '`' :: r0 :: rt).length,
        [(2, pre.length + 1), (3, (pre ++ '`' :: r0 :: rt).length)])] := by
    rw [matchToks, hA]
    rfl
  have hC : matchToks (pre ++ '`' :: r0 :: rt)
      [.lit ['`'], .mark 2, .cls notBtNlCr .one, .cls notBtNlCr .star,
        .mark 3, .eol] pre.length =
      [((pre ++ '`' :: r0 :: rt).length,
        [(2, pre.length + 1), (3, (pre ++ '`' :: r0 :: rt).length)])] := by
    rw [matchToks, if_pos hstart]
    exact hB
  have hT2 : matchToks (pre ++ '`' :: r0 :: rt)
      [.mark 1, .lit ['`'], .mark 2, .cls notBtNlCr .one, .cls notBtNlCr .star,
        .mark 3, .eol] pre.length =
      [((pre ++ '`' :: r0 :: rt).length,
        [(1, pre.length), (2, pre.length + 1),
         (3, (pre ++ '`' :: r0 :: rt).length)])] := by
    rw [matchToks, hC]
    rfl
  -- assemble: `^`, `mark 0`, and the greedy prefix class whose longest
  -- advance lands on the backtick
  have hrun0 : countRun notBtNlCr (pre ++ '`' :: r0 :: rt) 0 = pre.length := by
    rw [countRun, List.drop_zero, countRunGo_stop notBtNlCr pre '`' (r0 :: rt) hpre hbt]
  have hb0 : atBol (pre ++ '`' :: r0 :: rt) 0 = true := by
    simp [atBol]
  rw [matchAt, csPattern]
  rw [matchToks, if_pos hb0, matchToks]
  rw [matchToks, clsAdvance_star_eq, hrun0]
  rw [List.head?_map]
  rw [head?_flatMap_of_ne _ _ _ (by rw [Nat.zero_add, hT2]; simp)]
  rw [Nat.zero_add, hT2]
  rfl

theorem csPattern_matchAt_pos_none (s' : Str) (q : Nat) (hq : 1 ≤ q)
    (hql : q ≤ s'.length) (hnl : ∀ c ∈ s', c ≠ '\n') :
    matchAt csPattern s' q = none := by
  have hlt : q - 1 < s'.length := by omega
  have hb : atBol s' q = false := by
    have h2 : s'[q - 1]? = some s'[q - 1] := List.getElem?_eq_getElem hlt
    have h3 : s'[q - 1] ≠ '\n' := hnl _ (List.getElem_mem hlt)
    simp [atBol, h2, h3]
    omega
  rw [matchAt, csPattern, matchToks, if_neg (by simp [hb])]
  rfl

theorem csPattern_matchAt_none_noclose (pre : Str)
    (hpre : ∀ c ∈ pre, notBtNlCr c = true) :
    ∀ q, q ≤ (pre ++ ['`']).length → matchAt csPattern (pre ++ ['`']) q = none := by
  have hnl : ∀ c ∈ pre ++ ['`'], c ≠ '\n' := by
    intro c hc
    rcases List.mem_append.mp hc with h | h
    · exact notBtNlCr_ne_nl (hpre c h)
    · rcases List.mem_cons.mp h with h' | h'
      · subst h'
        decide
      · cases h'
  intro q hql
  rcases Nat.eq_zero_or_pos q with hq0 | hq1
  · subst hq0
    -- at line start every advance of the greedy prefix class fails:
    -- before the backtick the literal does not match, and at the backtick
    -- the mandatory remainder class has nothing to consume
    have hrun0 : countRun notBtNlCr (pre ++ ['`']) 0 = pre.length := by
      rw [countRun, List.drop_zero,
        countRunGo_stop notBtNlCr pre '`' [] hpre (by decide)]
    have hlitfail : ∀ k, k < pre.length →
        startsWithAt (pre ++ ['`']) k ['`'] = false := by
      intro k hk
      rw [startsWithAt, List.drop_append_of_le_length (le_of_lt hk),
        List.drop_eq_getElem_cons hk, List.cons_append]
      have hget : pre[k] ≠ '`' := by
        have hc := hpre pre[k] (List.getElem_mem hk)
        intro heq
        rw [heq] at hc
        exact absurd hc (by decide)
      have hbeq : ('`' == pre[k]) = false := beq_eq_false_iff_ne.mpr
        (Ne.symm hget)
      simp [List.isPrefixOf, hbeq]
    have hdropL1 : (pre ++ ['`']).drop (pre.length + 1) = [] := by
      rw [← List.drop_drop, List.drop_left]
      rfl
    have hatL : matchToks (pre ++ ['`'])
        [.mark 1, .lit ['`'], .mark 2, .cls notBtNlCr .one,
          .cls notBtNlCr .star, .mark 3, .eol] pre.length = [] := by
      have hstartL : startsWithAt (pre ++ ['`']) pre.length ['`'] = true := by
        rw [startsWithAt, List.drop_left]
        simp [List.isPrefixOf]
      have hone : clsAdvance notBtNlCr .one (pre ++ ['`'])
          (pre.length + 1) = [] := by
        have : countRun notBtNlCr (pre ++ ['`']) (pre.length + 1) = 0 := by
          rw [countRun, hdropL1]
          rfl
        simp [clsAdvance, this]
      have hA : matchToks (pre ++ ['`'])
          [.cls notBtNlCr .one, .cls notBtNlCr .star, .mark 3, .eol]
          (pre.length + 1) = [] := by
        rw [matchToks, hone]
        rfl
      have hB : matchToks (pre ++ ['`'])
          [.mark 2, .cls notBtNlCr .one, .cls notBtNlCr .star, .mark 3, .eol]
          (pre.length + 1) = [] := by
        rw [matchToks, hA]
        rfl
      have hC : matchToks (pre ++ ['`'])
          [.lit ['`'], .mark 2, .cls notBtNlCr .one, .cls notBtNlCr .star,
            .mark 3, .eol] pre.length = [] := by
        rw [matchToks, if_pos hstartL]
        exact hB
      rw [matchToks, hC]
      rfl
    have hflat : ((0 + pre.length) ::
        ((List.range pre.length).reverse).map (0 + ·)).flatMap
          (fun pos' => matchToks (pre ++ ['`'])
            [.mark 1, .lit ['`'], .mark 2, .cls notBtNlCr .one,
              .cls notBtNlCr .star, .mark 3, .eol] pos') = [] := by
      apply flatMap_eq_nil_of
      intro x hx
      rcases List.mem_cons.mp hx with hx0 | hx1
      · subst hx0
        rw [Nat.zero_add]
        exact hatL
      · rw [List.mem_map] at hx1
        obtain ⟨k, hk, hkx⟩ := hx1
        rw [List.mem_reverse, List.mem_range] at hk
        subst hkx
        rw [Nat.zero_add]
        rw [matchToks, matchToks, if_neg (by simp [hlitfail k hk])]
        rfl
    rw [matchAt, csPattern, matchToks, if_pos (by simp [atBol]), matchToks]
    rw [matchToks, clsAdvance_star_eq, hrun0]
    rw [hflat]
    rfl
  · exact csPattern_matchAt_pos_none _ q hq1 hql hnl

/-- **C9 amended.** For every line made of a prefix free of quote marks and
line breaks, a quote mark, and a *nonempty* remainder free of quote marks
and line breaks, the start-only pass rewrites the line to the tagged
placeholder `prefix start_shexe(remainder)shexe`, the raw text being
everything after the mark to the end of the line.  A line whose quote mark
is followed by nothing is left unchanged: the pattern's `[^`\n\r]+`
requires at least one remainder character. -/
theorem C9_start_only (pre rt : Str) (r0 : Char)
    (hpre : ∀ c ∈ pre, notBtNlCr c = true)
    (hr : ∀ c ∈ r0 :: rt, notBtNlCr c = true) :
    process_code_start (pre ++ '`' :: r0 :: rt) =
      pre ++ "start_shexe(".data ++ (r0 :: rt) ++ ")shexe".data ∧
    process_code_start (pre ++ ['`']) = pre ++ ['`'] := by
  constructor
  · have hnl : ∀ c ∈ pre ++ '`' :: r0 :: rt, c ≠ '\n' := by
      intro c hc
      rcases List.mem_append.mp hc with h | h
      · exact notBtNlCr_ne_nl (hpre c h)
      · rcases List.mem_cons.mp h with h' | h'
        · subst h'
          decide
        · exact notBtNlCr_ne_nl (hr c h')
    have hm0 := csPattern_matchAt_zero pre rt r0 hpre hr
    have hlenpos : 0 < (pre ++ '`' :: r0 :: rt).length := by simp
    have hsf0 : searchFrom csPattern (pre ++ '`' :: r0 :: rt) 0 =
        some (0, (pre ++ '`' :: r0 :: rt).length,
          [(0, 0), (1, pre.length), (2, pre.length + 1),
           (3, (pre ++ '`' :: r0 :: rt).length)]) := by
      rw [searchFrom, Nat.sub_zero, searchFromF, if_pos (Nat.zero_le _), hm0]
    have hsfE : searchFrom csPattern (pre ++ '`' :: r0 :: rt)
        (pre ++ '`' :: r0 :: rt).length = none := by
      rw [searchFrom]
      have h1 : (pre ++ '`' :: r0 :: rt).length + 1 -
          (pre ++ '`' :: r0 :: rt).length = 1 := by omega
      rw [h1, searchFromF, if_pos le_rfl,
        csPattern_matchAt_pos_none _ _ hlenpos le_rfl hnl]
      rfl
    have hdropL1 : (pre ++ '`' :: r0 :: rt).drop (pre.length + 1) = r0 :: rt := by
      rw [← List.drop_drop, List.drop_left]
      rfl
    rw [process_code_start, subAll,
      subAllF_succ_some csPattern csTpl (pre ++ '`' :: r0 :: rt)
        (pre ++ '`' :: r0 :: rt).length 0 0 (pre ++ '`' :: r0 :: rt).length
        [(0, 0), (1, pre.length), (2, pre.length + 1),
         (3, (pre ++ '`' :: r0 :: rt).length)] hsf0]
    rw [if_pos hlenpos]
    rw [subAllF_of_searchFrom_none _ _ _ _ _ hsfE, List.drop_length]
    have hrepl : buildRepl (pre ++ '`' :: r0 :: rt)
        [(0, 0), (1, pre.length), (2, pre.length + 1),
         (3, (pre ++ '`' :: r0 :: rt).length)] csTpl =
        pre ++ ("start_shexe(".data ++ ((r0 :: rt) ++ (")shexe".data ++ []))) := by
      have hg0 : groupSpan
          [(0, 0), (1, pre.length), (2, pre.length + 1),
           (3, (pre ++ '`' :: r0 :: rt).length)] 0 = some (0, pre.length) := by
        simp [groupSpan, List.lookup]
      have hg1 : groupSpan
          [(0, 0), (1, pre.length), (2, pre.length + 1),
           (3, (pre ++ '`' :: r0 :: rt).length)] 1 =
          some (pre.length + 1, (pre ++ '`' :: r0 :: rt).length) := by
        simp [groupSpan, List.lookup]
      have hs0 : slice (pre ++ '`' :: r0 :: rt) 0 pre.length = pre := by
        rw [slice, List.take_left, List.drop_zero]
      have hs1 : slice (pre ++ '`' :: r0 :: rt) (pre.length + 1)
          (pre ++ '`' :: r0 :: rt).length = r0 :: rt := by
        rw [slice, List.take_length, hdropL1]
      rw [buildRepl, csTpl]
      rw [List.flatMap_cons, List.flatMap_cons, List.flatMap_cons,
        List.flatMap_cons, List.flatMap_nil]
      have hs1b : slice (pre ++ '`' :: r0 :: rt) (pre.length + 1)
          (pre.length + (rt.length + 1 + 1)) = r0 :: rt := by
        have harith : pre.length + (rt.length + 1 + 1) =
            (pre ++ '`' :: r0 :: rt).length := by
          simp
        rw [harith, hs1]
      rw [applyRepl, applyRepl, applyRepl, applyRepl, hg0, hg1]
      simp [hs0, hs1, hs1b]
    rw [hrepl]
    simp [slice, List.append_assoc]
  · have hnone := csPattern_matchAt_none_noclose pre hpre
    have hsf : searchFrom csPattern (pre ++ ['`']) 0 = none := by
      rw [searchFrom]
      exact searchFromF_none_of _ _ _ _ (fun q _ hqs => hnone q hqs)
    rw [process_code_start, subAll,
      subAllF_of_searchFrom_none _ _ _ _ _ hsf, List.drop_zero]

/-! ### Occurrence and replacement lemmas -/

theorem isPrefixOf_append_of_le {pat x : Str} (b : Str)
    (h : pat.length ≤ x.length) :
    pat.isPrefixOf (x ++ b) = pat.isPrefixOf x := by
  induction pat generalizing x with
  | nil => simp [List.isPrefixOf]
  | cons p ps ih =>
    cases x with
    | nil => simp at h
    | cons c xs =>
      simp only [List.cons_append, List.isPrefixOf]
      change (p == c && ps.isPrefixOf (xs ++ b)) = (p == c && ps.isPrefixOf xs)
      rw [ih (by simpa using h)]

theorem startsWithAt_append_left {a : Str} (b pat : Str) {k : Nat}
    (h : k + pat.length ≤ a.length) :
    startsWithAt (a ++ b) k pat = startsWithAt a k pat := by
  rw [startsWithAt, startsWithAt, List.drop_append_of_le_length (by omega),
    isPrefixOf_append_of_le b (by simp only [List.length_drop]; omega)]

theorem startsWithAt_append_right (a b pat : Str) (k : Nat) :
    startsWithAt (a ++ b) (a.length + k) pat = startsWithAt b k pat := by
  rw [startsWithAt, startsWithAt, ← List.drop_drop, List.drop_left]

theorem startsWithAt_cons_succ (c : Char) (s pat : Str) (k : Nat) :
    startsWithAt (c :: s) (k + 1) pat = startsWithAt s k pat :=
  rfl

theorem startsWithAt_mono {s pat1 pat2 : Str} {k : Nat} (hp : pat1 <+: pat2)
    (h : startsWithAt s k pat2 = true) : startsWithAt s k pat1 = true := by
  rw [startsWithAt, List.isPrefixOf_iff_prefix] at h ⊢
  exact hp.trans h

theorem countOcc_pos_of_occ {pat s : Str} (hne : pat ≠ []) {k : Nat}
    (h : startsWithAt s k pat = true) : 1 ≤ countOcc pat s := by
  induction s generalizing k with
  | nil =>
    rw [startsWithAt, List.drop_nil] at h
    cases pat with
    | nil => exact absurd rfl hne
    | cons p ps => simp [List.isPrefixOf] at h
  | cons c rest ih =>
    cases k with
    | zero =>
      rw [startsWithAt, List.drop_zero] at h
      simp [countOcc, h]
    | succ k' =>
      have h' : startsWithAt rest k' pat = true := h
      have := ih h'
      cases hp : pat.isPrefixOf (c :: rest) <;> simp [countOcc, hp] <;> omega

theorem countOcc_two_of_occ {pat s : Str} (hne : pat ≠ []) {i j : Nat}
    (hij : i < j) (hi : startsWithAt s i pat = true)
    (hj : startsWithAt s j pat = true) : 2 ≤ countOcc pat s := by
  induction s generalizing i j with
  | nil =>
    rw [startsWithAt, List.drop_nil] at hi
    cases pat with
    | nil => exact absurd rfl hne
    | cons p ps => simp [List.isPrefixOf] at hi
  | cons c rest ih =>
    obtain ⟨j', rfl⟩ : ∃ j', j = j' + 1 := ⟨j - 1, by omega⟩
    have hj' : startsWithAt rest j' pat = true := hj
    cases i with
    | zero =>
      rw [startsWithAt, List.drop_zero] at hi
      have h1 := countOcc_pos_of_occ hne hj'
      simp [countOcc, hi]
      omega
    | succ i' =>
      have hi' : startsWithAt rest i' pat = true := hi
      have := ih (by omega) hi' hj'
      cases hp : pat.isPrefixOf (c :: rest) <;> simp [countOcc, hp] <;> omega

theorem replGo_nil (o po : Str) (fuel : Nat) : replGo o po fuel [] = [] := by
  cases fuel <;> rfl

theorem replGo_skip (o po : Str) (a s : Str) (fuel : Nat)
    (h : ∀ k, k < a.length → startsWithAt (a ++ s) k o = false)
    (hf : a.length ≤ fuel) :
    replGo o po fuel (a ++ s) = a ++ replGo o po (fuel - a.length) s := by
  induction a generalizing fuel with
  | nil => simp
  | cons c a' ih =>
    obtain ⟨f, rfl⟩ : ∃ f, fuel = f + 1 := ⟨fuel - 1, by
      simp only [List.length_cons] at hf
      omega⟩
    rw [List.cons_append, replGo]
    have h0 : (decide (o ≠ []) && o.isPrefixOf (c :: (a' ++ s))) = false := by
      have hx := h 0 (by simp)
      rw [startsWithAt, List.drop_zero, List.cons_append] at hx
      simp [hx]
    rw [h0]
    simp only [Bool.false_eq_true, if_false]
    have hshift : ∀ k, k < a'.length → startsWithAt (a' ++ s) k o = false := by
      intro k hk
      have hx := h (k + 1) (by simp only [List.length_cons]; omega)
      rw [List.cons_append, startsWithAt_cons_succ] at hx
      exact hx
    have hf' : a'.length ≤ f := by
      simp only [List.length_cons] at hf
      omega
    rw [ih f hshift hf']
    simp only [List.length_cons]
    have harith : f + 1 - (a'.length + 1) = f - a'.length := by omega
    rw [harith, List.cons_append]

theorem replaceAll_prefix_single (a o po : Str) (hne : o ≠ [])
    (h : ∀ k, k < a.length → startsWithAt (a ++ o) k o = false) :
    replaceAll (a ++ o) o po = a ++ po := by
  rw [replaceAll, replGo_skip o po a o (a ++ o).length h (by simp)]
  have hlen : (a ++ o).length - a.length = o.length := by simp
  rw [hlen]
  cases o with
  | nil => exact absurd rfl hne
  | cons c os =>
    rw [show (c :: os).length = os.length + 1 from rfl, replGo]
    have hpre : (decide ((c :: os) ≠ []) && (c :: os).isPrefixOf (c :: os)) = true := by
      simp [List.isPrefixOf_iff_prefix]
    rw [hpre]
    simp only [if_true]
    have hdrop : (c :: os).drop (c :: os).length = [] := List.drop_length _
    rw [show ((c :: os).drop (c :: os).length) = ([] : Str) from hdrop, replGo_nil]
    simp

/-! ### Scan-step lemmas -/

theorem searchFromF_skip (toks : List Tok) (s : Str) (fuel pos m : Nat)
    (r : Nat × Marks) (hpm : pos ≤ m) (hml : m ≤ s.length)
    (hfail : ∀ q, pos ≤ q → q < m → matchAt toks s q = none)
    (hhit : matchAt toks s m = some r) (hfuel : m + 1 - pos ≤ fuel) :
    searchFromF toks s fuel pos = some (m, r.1, r.2) := by
  obtain ⟨e, ms⟩ := r
  induction fuel generalizing pos with
  | zero => omega
  | succ f ih =>
    rw [searchFromF, if_pos (by omega)]
    by_cases hpe : pos = m
    · subst hpe
      rw [hhit]
    · rw [hfail pos le_rfl (by omega)]
      exact ih (pos + 1) (by omega) (fun q h1 h2 => hfail q (by omega) h2)
        (by omega)

theorem finditerF_succ_some (toks : List Tok) (s : Str) (fuel pos st e : Nat)
    (m : Marks) (h : searchFrom toks s pos = some (st, e, m)) :
    finditerF toks s (fuel + 1) pos =
      slice s st e ::
        (if st < e then finditerF toks s fuel e
         else finditerF toks s fuel (st + 1)) := by
  rw [finditerF, h]

theorem finditerF_of_none (toks : List Tok) (s : Str) (fuel pos : Nat)
    (h : searchFrom toks s pos = none) : finditerF toks s fuel pos = [] := by
  cases fuel with
  | zero => rfl
  | succ f => rw [finditerF, h]

/-! ### The newline-expansion pass (`re.sub(r'([\r\n]{1,2})', r'; \\\1', s)`) -/

theorem countRun_zero_of_head {p : Char → Bool} {s : Str} {q : Nat}
    (h : ∀ c, s[q]? = some c → p c = false) : countRun p s q = 0 := by
  rw [countRun]
  cases hd : s.drop q with
  | nil => rfl
  | cons c tail =>
    have hc : s[q]? = some c := by
      rw [← List.head?_drop, hd]
      rfl
    simp [countRun.go, h c hc]

theorem nlSub_matchAt_nl (s : Str) (q : Nat) (hq : s[q]? = some '\n')
    (hnext : ∀ c, s[q + 1]? = some c → isNlCr c = false) :
    matchAt nlSubPattern s q = some (q + 1, [(0, q), (1, q + 1)]) := by
  have hqlt : q < s.length := by
    rcases List.getElem?_eq_some_iff.mp hq with ⟨hlt, _⟩
    exact hlt
  have hgq : s[q] = '\n' := by
    rcases List.getElem?_eq_some_iff.mp hq with ⟨hlt, hv⟩
    exact hv
  have hrun : countRun isNlCr s q = 1 := by
    rw [countRun, List.drop_eq_getElem_cons hqlt, hgq]
    have h2 : countRun.go isNlCr (s.drop (q + 1)) = 0 := countRun_zero_of_head hnext
    simp [countRun.go, h2, isNlCr]
  have hrun2 : countRun isNlCr s (q + 1) = 0 := countRun_zero_of_head hnext
  rw [matchAt, nlSubPattern]
  rw [matchToks, matchToks]
  rw [show clsAdvance isNlCr .one s q = [q + 1] from by simp [clsAdvance, hrun]]
  rw [List.flatMap_cons, List.flatMap_nil, List.append_nil]
  rw [matchToks]
  rw [show clsAdvance isNlCr .opt s (q + 1) = [q + 1] from by
    simp [clsAdvance, hrun2]]
  rw [List.flatMap_cons, List.flatMap_nil, List.append_nil]
  rw [matchToks, matchToks]
  rfl

theorem nlSub_matchAt_none (s : Str) (q : Nat)
    (hnot : ∀ c, s[q]? = some c → isNlCr c = false) :
    matchAt nlSubPattern s q = none := by
  have hrun : countRun isNlCr s q = 0 := countRun_zero_of_head hnot
  rw [matchAt, nlSubPattern, matchToks, matchToks]
  rw [show clsAdvance isNlCr .one s q = [] from by simp [clsAdvance, hrun]]
  rfl

theorem slice_eq_take_drop (s : Str) (a b : Nat) :
    slice s a b = (s.drop a).take (b - a) := by
  rw [slice, List.drop_take]

theorem nlSub_subAllF_segs (s : Str) (segs : List Str) :
    ∀ (tail : Str) (fuel pos : Nat),
      s.drop pos = segs.flatMap (fun l => l ++ ['\n']) ++ tail →
      (∀ l ∈ segs, l ≠ [] ∧ ∀ c ∈ l, isNlCr c = false) →
      (∀ c ∈ tail, isNlCr c = false) →
      s.length + 1 - pos ≤ fuel →
      subAllF nlSubPattern nlSubTpl s fuel pos =
        segs.flatMap (fun l => l ++ "; \\\n".data) ++ tail := by
  induction segs with
  | nil =>
    intro tail fuel pos hdp hsegs htail hfuel
    have hnone : searchFrom nlSubPattern s pos = none := by
      rw [searchFrom]
      apply searchFromF_none_of
      intro q hq hqs
      apply nlSub_matchAt_none
      intro c hc
      have hc2 : (s.drop pos)[q - pos]? = some c := by
        rw [List.getElem?_drop]
        have : pos + (q - pos) = q := by omega
        rw [this]
        exact hc
      rw [hdp] at hc2
      simp only [List.flatMap_nil, List.nil_append] at hc2
      exact htail c (List.getElem?_mem hc2)
    rw [subAllF_of_searchFrom_none _ _ _ _ _ hnone, hdp]
    simp
  | cons seg rest ih =>
    intro tail fuel pos hdp hsegs htail hfuel
    have hseg := hsegs seg (List.mem_cons_self seg rest)
    have hdp2 : s.drop pos =
        seg ++ '\n' :: (rest.flatMap (fun l => l ++ ['\n']) ++ tail) := by
      rw [hdp, List.flatMap_cons]
      simp [List.append_assoc]
    have hql : pos + seg.length < s.length := by
      have h1 : (s.drop pos).length = s.length - pos := by simp
      rw [hdp2] at h1
      simp only [List.length_append, List.length_cons] at h1
      omega
    have hq : s[pos + seg.length]? = some '\n' := by
      have h1 : (s.drop pos)[seg.length]? = some '\n' := by
        rw [hdp2, List.getElem?_append_right le_rfl]
        simp
      rw [List.getElem?_drop] at h1
      exact h1
    have hnext : ∀ c, s[pos + seg.length + 1]? = some c → isNlCr c = false := by
      intro c hc
      have h1 : (s.drop pos)[seg.length + 1]? = some c := by
        rw [List.getElem?_drop]
        have : pos + (seg.length + 1) = pos + seg.length + 1 := by omega
        rw [this]
        exact hc
      rw [hdp2, List.getElem?_append_right (by omega)] at h1
      have h2 : (seg.length + 1) - seg.length = 1 := by omega
      rw [h2] at h1
      simp only [List.getElem?_cons_succ] at h1
      cases hrest : rest with
      | nil =>
        rw [hrest] at h1
        simp only [List.flatMap_nil, List.nil_append] at h1
        exact htail c (List.getElem?_mem h1)
      | cons r1 rest' =>
        rw [hrest] at h1
        have hr1 := hsegs r1 (by rw [hrest]; exact List.mem_cons_of_mem seg (List.mem_cons_self r1 rest'))
        obtain ⟨hr1ne, hr1c⟩ := hr1
        rw [List.flatMap_cons] at h1
        cases hr : r1 with
        | nil => exact absurd hr hr1ne
        | cons d r1' =>
          rw [hr] at h1
          simp only [List.cons_append, List.getElem?_cons_zero,
            Option.some.injEq] at h1
          subst h1
          exact hr1c d (by rw [hr]; exact List.mem_cons_self d r1')
    have hfail : ∀ q', pos ≤ q' → q' < pos + seg.length →
        matchAt nlSubPattern s q' = none := by
      intro q' h1 h2
      apply nlSub_matchAt_none
      intro c hc
      have hc2 : (s.drop pos)[q' - pos]? = some c := by
        rw [List.getElem?_drop]
        have : pos + (q' - pos) = q' := by omega
        rw [this]
        exact hc
      rw [hdp2, List.getElem?_append_left (by omega)] at hc2
      exact hseg.2 c (List.getElem?_mem hc2)
    have hhit := nlSub_matchAt_nl s (pos + seg.length) hq hnext
    have hsf : searchFrom nlSubPattern s pos =
        some (pos + seg.length, pos + seg.length + 1,
          [(0, pos + seg.length), (1, pos + seg.length + 1)]) := by
      rw [searchFrom]
      exact searchFromF_skip nlSubPattern s _ pos (pos + seg.length)
        (pos + seg.length + 1, [(0, pos + seg.length), (1, pos + seg.length + 1)])
        (by omega) (by omega) hfail hhit (by omega)
    obtain ⟨fl, rfl⟩ : ∃ fl, fuel = fl + 1 := ⟨fuel - 1, by omega⟩
    rw [subAllF_succ_some nlSubPattern nlSubTpl s fl pos (pos + seg.length)
      (pos + seg.length + 1) _ hsf]
    rw [if_pos (by omega)]
    have hdropq : s.drop (pos + seg.length) =
        '\n' :: (rest.flatMap (fun l => l ++ ['\n']) ++ tail) := by
      rw [← List.drop_drop, hdp2, List.drop_left]
    have hslice0 : slice s pos (pos + seg.length) = seg := by
      rw [slice_eq_take_drop, hdp2]
      have : pos + seg.length - pos = seg.length := by omega
      rw [this, List.take_left]
    have hslice1 : slice s (pos + seg.length) (pos + seg.length + 1) = ['\n'] := by
      rw [slice_eq_take_drop, hdropq]
      have : pos + seg.length + 1 - (pos + seg.length) = 1 := by omega
      rw [this]
      rfl
    have hrepl : buildRepl s
        [(0, pos + seg.length), (1, pos + seg.length + 1)] nlSubTpl =
        "; \\".data ++ ['\n'] := by
      rw [buildRepl, nlSubTpl]
      rw [List.flatMap_cons, List.flatMap_cons, List.flatMap_nil]
      rw [applyRepl, applyRepl]
      have hg : groupSpan [(0, pos + seg.length), (1, pos + seg.length + 1)] 0 =
          some (pos + seg.length, pos + seg.length + 1) := by
        simp [groupSpan, List.lookup]
      rw [hg]
      simp [hslice1]
    have hrec : subAllF nlSubPattern nlSubTpl s fl (pos + seg.length + 1) =
        rest.flatMap (fun l => l ++ "; \\\n".data) ++ tail := by
      apply ih tail fl (pos + seg.length + 1)
      · rw [← List.drop_drop, hdropq]
        rfl
      · exact fun l hl => hsegs l (List.mem_cons_of_mem seg hl)
      · exact htail
      · omega
    rw [hrec, hrepl, hslice0]
    rw [List.flatMap_cons]
    simp [List.append_assoc]

theorem nlSub_subAll_segs (segs : List Str) (tail : Str)
    (h1 : ∀ l ∈ segs, l ≠ [] ∧ ∀ c ∈ l, isNlCr c = false)
    (h2 : ∀ c ∈ tail, isNlCr c = false) :
    subAll nlSubPattern nlSubTpl
        (segs.flatMap (fun l => l ++ ['\n']) ++ tail) =
      segs.flatMap (fun l => l ++ "; \\\n".data) ++ tail := by
  rw [subAll]
  exact nlSub_subAllF_segs _ segs tail _ 0 (by rw [List.drop_zero]) h1 h2
    (by omega)

/-! ### Head-of-backtracking steps for the token matcher -/

theorem ne_nil_of_head_some {α : Type} {l : List α} {x : α}
    (h : l.head? = some x) : l ≠ [] := by
  intro he
  rw [he] at h
  exact Option.noConfusion h

theorem head?_flatMap_mid {α β : Type} (l1 : List α) (a : α) (l2 : List α)
    (f : α → List β) (h1 : ∀ x ∈ l1, f x = []) (ha : f a ≠ []) :
    ((l1 ++ a :: l2).flatMap f).head? = (f a).head? := by
  rw [List.flatMap_append, flatMap_eq_nil_of l1 f h1, List.nil_append]
  exact head?_flatMap_of_ne a l2 f ha

theorem range_map_decomp (pos n K : Nat) (hK : K ≤ n) :
    (List.range (n + 1)).map (pos + ·) =
      ((List.range K).map (pos + ·)) ++ (pos + K) ::
        ((List.range (n - K)).map (fun j => pos + K + 1 + j)) := by
  obtain ⟨m, rfl⟩ : ∃ m, n = K + m := ⟨n - K, by omega⟩
  have h1 : K + m + 1 = K + (m + 1) := by omega
  have h2 : K + m - K = m := by omega
  rw [h1, h2, List.range_add, List.map_append, List.map_map,
    List.range_succ_eq_map, List.map_cons, List.map_map]
  apply congrArg (fun t => (List.range K).map (pos + ·) ++ t)
  refine congrArg₂ _ rfl ?_
  apply List.map_congr_left
  intro j hj
  simp only [Function.comp_apply]
  omega

theorem matchToks_head_bol (s : Str) (t : List Tok) (pos : Nat)
    (h : atBol s pos = true) :
    (matchToks s (.bol :: t) pos).head? = (matchToks s t pos).head? := by
  rw [matchToks, if_pos h]

theorem matchToks_head_eol (s : Str) (t : List Tok) (pos : Nat)
    (h : atEol s pos = true) :
    (matchToks s (.eol :: t) pos).head? = (matchToks s t pos).head? := by
  rw [matchToks, if_pos h]

theorem matchToks_head_lit (s l : Str) (t : List Tok) (pos : Nat)
    (h : startsWithAt s pos l = true) :
    (matchToks s (.lit l :: t) pos).head? =
      (matchToks s t (pos + l.length)).head? := by
  rw [matchToks, if_pos h]

theorem matchToks_head_mark (s : Str) (k : Nat) (t : List Tok) (pos : Nat) :
    (matchToks s (.mark k :: t) pos).head? =
      Option.map (fun r => (r.1, (k, pos) :: r.2)) (matchToks s t pos).head? := by
  rw [matchToks, List.head?_map]

theorem matchToks_head_cls_one (s : Str) (p : Char → Bool) (t : List Tok)
    (pos : Nat) (h : 0 < countRun p s pos) :
    (matchToks s (.cls p .one :: t) pos).head? =
      (matchToks s t (pos + 1)).head? := by
  rw [matchToks]
  have hadv : clsAdvance p .one s pos = [pos + 1] := by
    simp [clsAdvance, h]
  rw [hadv]
  simp

theorem matchToks_head_cls_opt_zero (s : Str) (p : Char → Bool) (t : List Tok)
    (pos : Nat) (h : countRun p s pos = 0) :
    (matchToks s (.cls p .opt :: t) pos).head? =
      (matchToks s t pos).head? := by
  rw [matchToks]
  have hadv : clsAdvance p .opt s pos = [pos] := by
    simp [clsAdvance, h]
  rw [hadv]
  simp

theorem matchToks_head_cls_lazy (s : Str) (p : Char → Bool) (t : List Tok)
    (pos K : Nat) (hK : K ≤ countRun p s pos)
    (hfail : ∀ j, j < K → matchToks s t (pos + j) = [])
    (hhit : matchToks s t (pos + K) ≠ []) :
    (matchToks s (.cls p .lazyStar :: t) pos).head? =
      (matchToks s t (pos + K)).head? := by
  rw [matchToks]
  have hadv : clsAdvance p .lazyStar s pos =
      (List.range (countRun p s pos + 1)).map (pos + ·) := rfl
  rw [hadv, range_map_decomp pos (countRun p s pos) K hK]
  apply head?_flatMap_mid
  · intro x hx
    rw [List.mem_map] at hx
    obtain ⟨j, hj, rfl⟩ := hx
    exact hfail j (List.mem_range.mp hj)
  · exact hhit

theorem matchToks_nil_lit (s l : Str) (t : List Tok) (pos : Nat)
    (h : startsWithAt s pos l = false) :
    matchToks s (.lit l :: t) pos = [] := by
  rw [matchToks, if_neg (by simp [h])]

theorem matchToks_nil_mark (s : Str) (k : Nat) (t : List Tok) (pos : Nat)
    (h : matchToks s t pos = []) :
    matchToks s (.mark k :: t) pos = [] := by
  rw [matchToks, h]
  rfl

theorem startsWithAt_single_false (s : Str) (j : Nat) (b c : Char)
    (hc : s[j]? = some c) (hne : c ≠ b) : startsWithAt s j [b] = false := by
  obtain ⟨hlt, hv⟩ := List.getElem?_eq_some_iff.mp hc
  rw [startsWithAt, List.drop_eq_getElem_cons hlt, hv]
  simp [List.isPrefixOf]
  exact fun h => absurd h.symm hne

theorem notBtNlCr_ne_bt {c : Char} (h : notBtNlCr c = true) : c ≠ '`' := by
  intro hc
  subst hc
  exact absurd h (by decide)

theorem notBtNlCr_isNlCr {c : Char} (h : notBtNlCr c = true) :
    isNlCr c = false := by
  by_cases h1 : c = '\n'
  · subst h1
    exact absurd h (by decide)
  by_cases h2 : c = '\r'
  · subst h2
    exact absurd h (by decide)
  simp [isNlCr, h1, h2]

/-! ### The multiline pattern on a well-formed block -/

theorem mlPattern_matchAt_zero (B pre grp : Str)
    (hB : B = pre ++ '`' :: '\n' :: (grp ++ ['`']))
    (hpre : ∀ c ∈ pre, notBtNlCr c = true)
    (hgrp : ∀ c ∈ grp, c ≠ '`')
    (hgrp0 : ∀ c, (grp ++ ['`'])[0]? = some c → isNlCr c = false) :
    matchAt mlPattern B 0 =
      some (B.length,
        [(0, 0), (1, pre.length), (2, pre.length + 2),
         (3, pre.length + 2 + grp.length)]) := by
  have hbt : notBtNlCr '`' = false := by decide
  have hlen : B.length = pre.length + 2 + grp.length + 1 := by
    rw [hB]
    simp [List.length_append]
    omega
  have hdropP : B.drop pre.length = '`' :: '\n' :: (grp ++ ['`']) := by
    rw [hB]
    exact List.drop_left pre _
  have hdropP1 : B.drop (pre.length + 1) = '\n' :: (grp ++ ['`']) := by
    rw [← List.drop_drop, hdropP]
    rfl
  have hdropP2 : B.drop (pre.length + 2) = grp ++ ['`'] := by
    have h2 : pre.length + 2 = pre.length + 1 + 1 := rfl
    rw [h2, ← List.drop_drop, hdropP1]
    rfl
  have hdropP4 : B.drop (pre.length + 2 + grp.length) = ['`'] := by
    rw [← List.drop_drop, hdropP2, List.drop_left]
  have hchP1 : B[pre.length + 1]? = some '\n' := by
    rw [← List.head?_drop, hdropP1]
    rfl
  have hrun0 : countRun notBtNlCr B 0 = pre.length := by
    rw [countRun, List.drop_zero, hB]
    exact countRunGo_stop notBtNlCr pre '`' _ hpre hbt
  have hrun2pos : 0 < countRun isNlCr B (pre.length + 1) := by
    rw [countRun, hdropP1]
    simp [countRun.go, isNlCr]
  have hrun3 : countRun isNlCr B (pre.length + 2) = 0 := by
    apply countRun_zero_of_head
    intro c hc
    apply hgrp0
    rw [← List.head?_drop, hdropP2, List.head?_eq_getElem?] at hc
    exact hc
  have hrunA : countRun anyChar B (pre.length + 2) = grp.length + 1 := by
    rw [countRun, hdropP2, countRunGo_all anyChar _ (fun c _ => rfl)]
    simp
  have hrun5 : countRun isPySpace B (pre.length + 2 + grp.length + 1) = 0 := by
    apply countRun_zero_of_head
    intro c hc
    rw [List.getElem?_eq_none (by omega)] at hc
    exact Option.noConfusion hc
  have hsw1 : startsWithAt B pre.length ['`'] = true := by
    rw [startsWithAt, hdropP]
    simp [List.isPrefixOf]
  have hsw4 : startsWithAt B (pre.length + 2 + grp.length) ['`'] = true := by
    rw [startsWithAt, hdropP4]
    simp [List.isPrefixOf]
  have hEolEnd : atEol B (pre.length + 2 + grp.length + 1) = true := by
    simp [atEol, hlen]
  have hEol2 : atEol B (pre.length + 1) = true := by
    simp [atEol, hchP1]
  have hT14 : matchToks B [.eol] (pre.length + 2 + grp.length + 1) =
      [(pre.length + 2 + grp.length + 1, [])] := by
    rw [matchToks, if_pos hEolEnd]
    rfl
  have hT13 : matchToks B [.cls isPySpace .lazyStar, .eol]
      (pre.length + 2 + grp.length + 1) =
      [(pre.length + 2 + grp.length + 1, [])] := by
    rw [matchToks]
    have hadv : clsAdvance isPySpace .lazyStar B (pre.length + 2 + grp.length + 1) =
        [pre.length + 2 + grp.length + 1] := by
      simp [clsAdvance, hrun5, show List.range 1 = [0] from rfl]
    rw [hadv, List.flatMap_cons, List.flatMap_nil, List.append_nil, hT14]
  have hT12 : matchToks B [.lit ['`'], .cls isPySpace .lazyStar, .eol]
      (pre.length + 2 + grp.length) =
      [(pre.length + 2 + grp.length + 1, [])] := by
    rw [matchToks, if_pos hsw4]
    exact hT13
  have hT11 : matchToks B [.mark 3, .lit ['`'], .cls isPySpace .lazyStar, .eol]
      (pre.length + 2 + grp.length) =
      [(pre.length + 2 + grp.length + 1, [(3, pre.length + 2 + grp.length)])] := by
    rw [matchToks, hT12]
    rfl
  have hT10 : (matchToks B
      [.cls anyChar .lazyStar, .mark 3, .lit ['`'], .cls isPySpace .lazyStar, .eol]
      (pre.length + 2)).head? =
      some (pre.length + 2 + grp.length + 1, [(3, pre.length + 2 + grp.length)]) := by
    rw [matchToks_head_cls_lazy B anyChar _ (pre.length + 2) grp.length
      (by rw [hrunA]; omega)
      (fun j hj => by
        apply matchToks_nil_mark
        apply matchToks_nil_lit
        apply startsWithAt_single_false B (pre.length + 2 + j) '`' grp[j]
        · have h1 := List.getElem?_drop B (pre.length + 2) j
          rw [hdropP2, List.getElem?_append_left hj] at h1
          rw [← h1]
          exact List.getElem?_eq_getElem hj
        · exact hgrp grp[j] (List.getElem_mem hj))
      (by rw [hT11]; simp)]
    rw [hT11]
    rfl
  have hT9 : (matchToks B
      [.mark 2, .cls anyChar .lazyStar, .mark 3, .lit ['`'],
       .cls isPySpace .lazyStar, .eol] (pre.length + 2)).head? =
      some (pre.length + 2 + grp.length + 1,
        [(2, pre.length + 2), (3, pre.length + 2 + grp.length)]) := by
    rw [matchToks_head_mark, hT10]
    rfl
  have hT8 : (matchToks B
      [.cls isNlCr .opt, .mark 2, .cls anyChar .lazyStar, .mark 3, .lit ['`'],
       .cls isPySpace .lazyStar, .eol] (pre.length + 2)).head? =
      some (pre.length + 2 + grp.length + 1,
        [(2, pre.length + 2), (3, pre.length + 2 + grp.length)]) := by
    rw [matchToks_head_cls_opt_zero B isNlCr _ (pre.length + 2) hrun3]
    exact hT9
  have hT7 : (matchToks B
      [.cls isNlCr .one, .cls isNlCr .opt, .mark 2, .cls anyChar .lazyStar,
       .mark 3, .lit ['`'], .cls isPySpace .lazyStar, .eol]
      (pre.length + 1)).head? =
      some (pre.length + 2 + grp.length + 1,
        [(2, pre.length + 2), (3, pre.length + 2 + grp.length)]) := by
    rw [matchToks_head_cls_one B isNlCr _ (pre.length + 1) hrun2pos]
    exact hT8
  have hT6 : (matchToks B
      [.eol, .cls isNlCr .one, .cls isNlCr .opt, .mark 2, .cls anyChar .lazyStar,
       .mark 3, .lit ['`'], .cls isPySpace .lazyStar, .eol]
      (pre.length + 1)).head? =
      some (pre.length + 2 + grp.length + 1,
        [(2, pre.length + 2), (3, pre.length + 2 + grp.length)]) := by
    rw [matchToks_head_eol B _ (pre.length + 1) hEol2]
    exact hT7
  have hT5 : (matchToks B
      [.cls isPySpace .lazyStar, .eol, .cls isNlCr .one, .cls isNlCr .opt,
       .mark 2, .cls anyChar .lazyStar, .mark 3, .lit ['`'],
       .cls isPySpace .lazyStar, .eol] (pre.length + 1)).head? =
      some (pre.length + 2 + grp.length + 1,
        [(2, pre.length + 2), (3, pre.length + 2 + grp.length)]) := by
    rw [matchToks_head_cls_lazy B isPySpace _ (pre.length + 1) 0 (Nat.zero_le _)
      (fun j hj => absurd hj (Nat.not_lt_zero j))
      (ne_nil_of_head_some hT6)]
    exact hT6
  have hT4 : (matchToks B
      [.lit ['`'], .cls isPySpace .lazyStar, .eol, .cls isNlCr .one,
       .cls isNlCr .opt, .mark 2, .cls anyChar .lazyStar, .mark 3, .lit ['`'],
       .cls isPySpace .lazyStar, .eol] pre.length).head? =
      some (pre.length + 2 + grp.length + 1,
        [(2, pre.length + 2), (3, pre.length + 2 + grp.length)]) := by
    rw [matchToks_head_lit B ['`'] _ pre.length hsw1]
    exact hT5
  have hT3 : (matchToks B
      [.mark 1, .lit ['`'], .cls isPySpace .lazyStar, .eol, .cls isNlCr .one,
       .cls isNlCr .opt, .mark 2, .cls anyChar .lazyStar, .mark 3, .lit ['`'],
       .cls isPySpace .lazyStar, .eol] pre.length).head? =
      some (pre.length + 2 + grp.length + 1,
        [(1, pre.length), (2, pre.length + 2),
         (3, pre.length + 2 + grp.length)]) := by
    rw [matchToks_head_mark, hT4]
    rfl
  have hT2 : (matchToks B
      [.cls notBtNlCr .lazyStar, .mark 1, .lit ['`'], .cls isPySpace .lazyStar,
       .eol, .cls isNlCr .one, .cls isNlCr .opt, .mark 2, .cls anyChar .lazyStar,
       .mark 3, .lit ['`'], .cls isPySpace .lazyStar, .eol] 0).head? =
      some (pre.length + 2 + grp.length + 1,
        [(1, pre.length), (2, pre.length + 2),
         (3, pre.length + 2 + grp.length)]) := by
    rw [matchToks_head_cls_lazy B notBtNlCr _ 0 pre.length (by rw [hrun0])
      (fun j hj => by
        rw [Nat.zero_add]
        apply matchToks_nil_mark
        apply matchToks_nil_lit
        apply startsWithAt_single_false B j '`' pre[j]
        · rw [hB, List.getElem?_append_left hj, List.getElem?_eq_getElem hj]
        · exact notBtNlCr_ne_bt (hpre pre[j] (List.getElem_mem hj)))
      (by rw [Nat.zero_add]; exact ne_nil_of_head_some hT3)]
    rw [Nat.zero_add]
    exact hT3
  have hb0 : atBol B 0 = true := by
    simp [atBol]
  rw [matchAt, mlPattern, hlen]
  rw [matchToks, if_pos hb0]
  rw [matchToks_head_mark, hT2]
  rfl

theorem ml_subAll_block (pre grp : Str)
    (hpre : ∀ c ∈ pre, notBtNlCr c = true)
    (hgrp : ∀ c ∈ grp, c ≠ '`')
    (hgrp0 : ∀ c, (grp ++ ['`'])[0]? = some c → isNlCr c = false) :
    subAll mlPattern mlTpl (pre ++ '`' :: '\n' :: (grp ++ ['`'])) =
      pre ++ "multiline_shexe(".data ++ grp ++ ")shexe".data := by
  have hmatch := mlPattern_matchAt_zero (pre ++ '`' :: '\n' :: (grp ++ ['`']))
    pre grp rfl hpre hgrp hgrp0
  have hlen : (pre ++ '`' :: '\n' :: (grp ++ ['`'])).length =
      pre.length + 2 + grp.length + 1 := by
    simp [List.length_append]
    omega
  have hdropP2 : (pre ++ '`' :: '\n' :: (grp ++ ['`'])).drop (pre.length + 2) =
      grp ++ ['`'] := by
    have h1 : (pre ++ '`' :: '\n' :: (grp ++ ['`'])).drop pre.length =
        '`' :: '\n' :: (grp ++ ['`']) := List.drop_left pre _
    have h2 : pre.length + 2 = pre.length + 1 + 1 := rfl
    rw [h2, ← List.drop_drop, ← List.drop_drop, h1]
    rfl
  have hdropP4 : (pre ++ '`' :: '\n' :: (grp ++ ['`'])).drop
      (pre.length + 2 + grp.length) = ['`'] := by
    rw [← List.drop_drop, hdropP2, List.drop_left]
  have hsf : searchFrom mlPattern (pre ++ '`' :: '\n' :: (grp ++ ['`'])) 0 =
      some (0, (pre ++ '`' :: '\n' :: (grp ++ ['`'])).length,
        [(0, 0), (1, pre.length), (2, pre.length + 2),
         (3, pre.length + 2 + grp.length)]) := by
    rw [searchFrom]
    exact searchFromF_skip mlPattern _ _ 0 0 _ le_rfl (Nat.zero_le _)
      (fun q h1 h2 => absurd h2 (Nat.not_lt_zero q)) hmatch (by omega)
  have hmend : matchAt mlPattern (pre ++ '`' :: '\n' :: (grp ++ ['`']))
      (pre ++ '`' :: '\n' :: (grp ++ ['`'])).length = none := by
    have hb : atBol (pre ++ '`' :: '\n' :: (grp ++ ['`']))
        (pre ++ '`' :: '\n' :: (grp ++ ['`'])).length = false := by
      have h1 : (pre ++ '`' :: '\n' :: (grp ++ ['`'])).length - 1 =
          pre.length + 2 + grp.length := by omega
      have hch : (pre ++ '`' :: '\n' :: (grp ++ ['`']))[pre.length + 2 + grp.length]? = some '`' := by
        rw [← List.head?_drop, hdropP4]
        rfl
      simp [atBol, h1, hch, hlen]
    rw [matchAt, mlPattern, matchToks, if_neg (by rw [hb]; simp)]
    rfl
  have hsfend : searchFrom mlPattern (pre ++ '`' :: '\n' :: (grp ++ ['`']))
      (pre ++ '`' :: '\n' :: (grp ++ ['`'])).length = none := by
    rw [searchFrom]
    apply searchFromF_none_of
    intro q h1 h2
    have hq : q = (pre ++ '`' :: '\n' :: (grp ++ ['`'])).length := by omega
    rw [hq]
    exact hmend
  have hg0 : groupSpan [(0, 0), (1, pre.length), (2, pre.length + 2),
      (3, pre.length + 2 + grp.length)] 0 = some (0, pre.length) := by
    simp [groupSpan, List.lookup]
  have hg1 : groupSpan [(0, 0), (1, pre.length), (2, pre.length + 2),
      (3, pre.length + 2 + grp.length)] 1 =
      some (pre.length + 2, pre.length + 2 + grp.length) := by
    simp [groupSpan, List.lookup]
  have hsliceA : slice (pre ++ '`' :: '\n' :: (grp ++ ['`'])) 0 pre.length =
      pre := by
    rw [slice_eq_take_drop, List.drop_zero, Nat.sub_zero, List.take_left]
  have hsliceB : slice (pre ++ '`' :: '\n' :: (grp ++ ['`']))
      (pre.length + 2) (pre.length + 2 + grp.length) = grp := by
    rw [slice_eq_take_drop, hdropP2]
    have h1 : pre.length + 2 + grp.length - (pre.length + 2) = grp.length := by
      omega
    rw [h1, List.take_left]
  have hslice0 : slice (pre ++ '`' :: '\n' :: (grp ++ ['`'])) 0 0 = [] := by
    rw [slice_eq_take_drop]
    rfl
  rw [subAll, subAllF_succ_some _ _ _
    (pre ++ '`' :: '\n' :: (grp ++ ['`'])).length 0 0 _ _ hsf]
  rw [if_pos (by omega)]
  rw [subAllF_of_searchFrom_none _ _ _ _ _ hsfend, List.drop_length]
  rw [buildRepl, mlTpl]
  rw [List.flatMap_cons, List.flatMap_cons, List.flatMap_cons,
    List.flatMap_cons, List.flatMap_nil]
  rw [applyRepl, applyRepl, applyRepl, applyRepl, hg0, hg1]
  simp [hslice0, hsliceA, hsliceB, List.append_assoc]

theorem ml_finditer_single (pre grp : Str)
    (hpreM : ∀ k, k < pre.length →
      startsWithAt (pre ++ "multiline_shexe".data) k "multiline_shexe".data = false)
    (hgrpM : ∀ k, k < grp.length + 2 →
      startsWithAt ('(' :: (grp ++ ")shexe".data)) k "shexe".data = false) :
    finditer mlFindPattern
        ((pre ++ "multiline_shexe".data) ++ ('(' :: (grp ++ ")shexe".data))) =
      ["multiline_shexe".data ++ '(' :: (grp ++ ")shexe".data)] := by
  have hM15len : ("multiline_shexe".data).length = 15 := rfl
  have hSlen : ((pre ++ "multiline_shexe".data) ++ ('(' :: (grp ++ ")shexe".data))).length =
      pre.length + grp.length + 22 := by
    simp [List.length_append, hM15len, show (")shexe".data).length = 6 from rfl]
    omega
  have hdropPre : ((pre ++ "multiline_shexe".data) ++ ('(' :: (grp ++ ")shexe".data))).drop pre.length =
      "multiline_shexe".data ++ '(' :: (grp ++ ")shexe".data) := by
    rw [List.append_assoc]
    exact List.drop_left pre _
  have hdropA : ((pre ++ "multiline_shexe".data) ++ ('(' :: (grp ++ ")shexe".data))).drop (pre.length + 15) =
      '(' :: (grp ++ ")shexe".data) := by
    rw [← List.drop_drop, hdropPre]
    have h1 : ("multiline_shexe".data ++ '(' :: (grp ++ ")shexe".data)).drop 15 =
        ("multiline_shexe".data).drop 15 ++ '(' :: (grp ++ ")shexe".data) :=
      List.drop_append_of_le_length (by rw [hM15len])
    rw [h1]
    rfl
  have hdropRR : ('(' :: (grp ++ ")shexe".data)).drop (grp.length + 2) =
      "shexe".data := by
    rw [show grp.length + 2 = grp.length + 1 + 1 from rfl, List.drop_succ_cons,
      ← List.drop_drop, List.drop_left]
    rfl
  have hswA : ∀ j, startsWithAt ((pre ++ "multiline_shexe".data) ++ ('(' :: (grp ++ ")shexe".data)))
      (pre.length + 15 + j) "shexe".data =
      startsWithAt ('(' :: (grp ++ ")shexe".data)) j "shexe".data := by
    intro j
    have h1 := startsWithAt_append_right (pre ++ "multiline_shexe".data)
      ('(' :: (grp ++ ")shexe".data)) "shexe".data j
    have h2 : (pre ++ "multiline_shexe".data).length = pre.length + 15 := by
      simp [List.length_append, hM15len]
    rw [h2] at h1
    exact h1
  have hfail1 : ∀ q, q < pre.length →
      matchAt mlFindPattern ((pre ++ "multiline_shexe".data) ++ ('(' :: (grp ++ ")shexe".data))) q =
      none := by
    intro q hq
    have hsw : startsWithAt ((pre ++ "multiline_shexe".data) ++ ('(' :: (grp ++ ")shexe".data))) q
        "multiline_shexe".data = false := by
      rw [startsWithAt_append_left _ _ (by rw [List.length_append, hM15len]; omega)]
      exact hpreM q hq
    rw [matchAt, mlFindPattern, matchToks_nil_lit _ _ _ _ hsw]
    rfl
  have hsw1 : startsWithAt ((pre ++ "multiline_shexe".data) ++ ('(' :: (grp ++ ")shexe".data)))
      pre.length "multiline_shexe".data = true := by
    rw [startsWithAt, hdropPre]
    simp [List.isPrefixOf_iff_prefix]
  have hsw2 : startsWithAt ((pre ++ "multiline_shexe".data) ++ ('(' :: (grp ++ ")shexe".data)))
      (pre.length + 15 + (grp.length + 2)) "shexe".data = true := by
    rw [hswA, startsWithAt, hdropRR]
    simp [List.isPrefixOf_iff_prefix]
  have hrunA : countRun anyChar ((pre ++ "multiline_shexe".data) ++ ('(' :: (grp ++ ")shexe".data)))
      (pre.length + 15) = grp.length + 7 := by
    rw [countRun, hdropA, countRunGo_all anyChar _ (fun c _ => rfl)]
    simp [List.length_append, show (")shexe".data).length = 6 from rfl]
  have hL3 : matchToks ((pre ++ "multiline_shexe".data) ++ ('(' :: (grp ++ ")shexe".data)))
      [.lit "shexe".data] (pre.length + 15 + (grp.length + 2)) =
      [(pre.length + grp.length + 22, [])] := by
    rw [matchToks, if_pos hsw2, matchToks]
    have h1 : pre.length + 15 + (grp.length + 2) + ("shexe".data).length =
        pre.length + grp.length + 22 := by
      rw [show ("shexe".data).length = 5 from rfl]
      omega
    rw [h1]
  have hL2 : (matchToks ((pre ++ "multiline_shexe".data) ++ ('(' :: (grp ++ ")shexe".data)))
      [.cls anyChar .lazyStar, .lit "shexe".data] (pre.length + 15)).head? =
      some (pre.length + grp.length + 22, []) := by
    rw [matchToks_head_cls_lazy _ anyChar _ (pre.length + 15) (grp.length + 2)
      (by rw [hrunA]; omega)
      (fun j hj => by
        apply matchToks_nil_lit
        rw [hswA]
        exact hgrpM j hj)
      (by rw [hL3]; simp)]
    rw [hL3]
    rfl
  have hL1 : matchAt mlFindPattern ((pre ++ "multiline_shexe".data) ++ ('(' :: (grp ++ ")shexe".data)))
      pre.length = some (pre.length + grp.length + 22, []) := by
    rw [matchAt, mlFindPattern, matchToks, if_pos hsw1]
    exact hL2
  have hsf : searchFrom mlFindPattern ((pre ++ "multiline_shexe".data) ++ ('(' :: (grp ++ ")shexe".data)))
      0 = some (pre.length, pre.length + grp.length + 22, []) := by
    rw [searchFrom]
    exact searchFromF_skip mlFindPattern _ _ 0 pre.length (pre.length + grp.length + 22, [])
      (Nat.zero_le _) (by omega)
      (fun q h1 h2 => hfail1 q h2) hL1 (by omega)
  have hmendF : matchAt mlFindPattern ((pre ++ "multiline_shexe".data) ++ ('(' :: (grp ++ ")shexe".data)))
      (pre.length + grp.length + 22) = none := by
    have hsw : startsWithAt ((pre ++ "multiline_shexe".data) ++ ('(' :: (grp ++ ")shexe".data)))
        (pre.length + grp.length + 22) "multiline_shexe".data = false := by
      rw [startsWithAt, ← hSlen, List.drop_length]
      decide
    rw [matchAt, mlFindPattern, matchToks_nil_lit _ _ _ _ hsw]
    rfl
  have hsfend : searchFrom mlFindPattern ((pre ++ "multiline_shexe".data) ++ ('(' :: (grp ++ ")shexe".data)))
      (pre.length + grp.length + 22) = none := by
    rw [searchFrom]
    apply searchFromF_none_of
    intro q h1 h2
    rw [hSlen] at h2
    have hq : q = pre.length + grp.length + 22 := by omega
    rw [hq]
    exact hmendF
  have hslice : slice ((pre ++ "multiline_shexe".data) ++ ('(' :: (grp ++ ")shexe".data)))
      pre.length (pre.length + grp.length + 22) =
      "multiline_shexe".data ++ '(' :: (grp ++ ")shexe".data) := by
    rw [slice_eq_take_drop, hdropPre]
    have h1 : pre.length + grp.length + 22 - pre.length =
        ("multiline_shexe".data ++ '(' :: (grp ++ ")shexe".data)).length := by
      simp [List.length_append, hM15len, show (")shexe".data).length = 6 from rfl]
      omega
    rw [h1, List.take_length]
  rw [finditer, finditerF_succ_some _ _ _ _ _ _ _ hsf]
  rw [if_pos (by omega), finditerF_of_none _ _ _ _ hsfend, hslice]

theorem joinNl_mem {c : Char} : ∀ {ls : List Str},
    c ∈ joinNl ls → c = '\n' ∨ ∃ l ∈ ls, c ∈ l := by
  intro ls
  induction ls with
  | nil =>
    intro h
    exact absurd h (List.not_mem_nil c)
  | cons l rest ih =>
    intro h
    cases hr : rest with
    | nil =>
      rw [hr] at h
      exact Or.inr ⟨l, List.mem_cons_self l _, h⟩
    | cons l2 ls2 =>
      rw [hr, joinNl] at h
      rcases List.mem_append.mp h with h1 | h1
      · exact Or.inr ⟨l, List.mem_cons_self l _, h1⟩
      · rcases List.mem_cons.mp h1 with h2 | h2
        · exact Or.inl h2
        · rcases ih (by rw [hr]; exact h2) with h3 | h3
          · exact Or.inl h3
          · obtain ⟨l3, hl3, hc3⟩ := h3
            exact Or.inr ⟨l3, List.mem_cons_of_mem l (hr ▸ hl3), hc3⟩

theorem joinNl_flatMap (l : Str) (ls : List Str) :
    (l :: ls).flatMap (fun x => x ++ ['\n']) = joinNl (l :: ls) ++ ['\n'] := by
  induction ls generalizing l with
  | nil => simp [joinNl]
  | cons l2 ls2 ih =>
    rw [List.flatMap_cons, ih l2, joinNl]
    simp [List.append_assoc]

/-- **C6 amended.** Every multiline embedded-command block — a plain prefix
ending in the opening backtick, a newline, one or more nonempty plain
content lines, and a closing backtick — is rewritten by the first grammar
pass into a single tagged placeholder whose raw text is the content lines
each *suffixed* with `; \` plus newline (the pass consumes the newline
after the opening backtick and captures the one before the closing
backtick), provided the tag marker texts do not already occur in the
prefix or the block. -/
theorem C6_multiline_join (pre : Str) (lines : List Str)
    (hpre : ∀ c ∈ pre, notBtNlCr c = true)
    (hne : lines ≠ [])
    (hl : ∀ l ∈ lines, l ≠ [] ∧ ∀ c ∈ l, notBtNlCr c = true)
    (hpreM : ∀ k, k < pre.length →
      startsWithAt (pre ++ "multiline_shexe".data) k "multiline_shexe".data = false)
    (hgrpM : ∀ k, k < (joinNl lines ++ ['\n']).length + 2 →
      startsWithAt ('(' :: ((joinNl lines ++ ['\n']) ++ ")shexe".data)) k "shexe".data = false) :
    process_multilines (pre ++ '`' :: '\n' :: ((joinNl lines ++ ['\n']) ++ ['`'])) =
      pre ++ "multiline_shexe(".data ++
        lines.flatMap (fun l => l ++ "; \\\n".data) ++ ")shexe".data := by
  obtain ⟨l1, rest, rfl⟩ : ∃ l1 rest, lines = l1 :: rest := by
    cases lines with
    | nil => exact absurd rfl hne
    | cons a b => exact ⟨a, b, rfl⟩
  have h16 : "multiline_shexe(".data = "multiline_shexe".data ++ ['('] := by
    decide
  have hgrpBt : ∀ c ∈ joinNl (l1 :: rest) ++ ['\n'], c ≠ '`' := by
    intro c hc
    rcases List.mem_append.mp hc with h1 | h1
    · rcases joinNl_mem h1 with h2 | h2
      · subst h2
        decide
      · obtain ⟨l, hl2, hc2⟩ := h2
        exact notBtNlCr_ne_bt ((hl l hl2).2 c hc2)
    · have h2 := List.mem_singleton.mp h1
      subst h2
      decide
  have hgrp0 : ∀ c,
      ((joinNl (l1 :: rest) ++ ['\n']) ++ ['`'])[0]? = some c →
      isNlCr c = false := by
    obtain ⟨d, l1t, hl1⟩ : ∃ d t, l1 = d :: t := by
      rcases hl l1 (List.mem_cons_self _ _) with ⟨hne1, _⟩
      cases l1 with
      | nil => exact absurd rfl hne1
      | cons d t => exact ⟨d, t, rfl⟩
    have hjoin : ∃ t2, joinNl (l1 :: rest) = d :: t2 := by
      cases rest with
      | nil => exact ⟨l1t, by rw [hl1]; rfl⟩
      | cons l2 ls2 => exact ⟨l1t ++ '\n' :: joinNl (l2 :: ls2), by rw [hl1]; rfl⟩
    obtain ⟨t2, hjoin⟩ := hjoin
    intro c hc
    rw [hjoin] at hc
    simp only [List.cons_append, List.getElem?_cons_zero, Option.some.injEq] at hc
    subst hc
    exact notBtNlCr_isNlCr ((hl l1 (List.mem_cons_self _ _)).2 d (by rw [hl1]; exact List.mem_cons_self d l1t))
  have hS1 := ml_subAll_block pre (joinNl (l1 :: rest) ++ ['\n']) hpre hgrpBt hgrp0
  have hbufEq : pre ++ "multiline_shexe(".data ++ (joinNl (l1 :: rest) ++ ['\n']) ++ ")shexe".data =
      (pre ++ "multiline_shexe".data) ++
        ('(' :: ((joinNl (l1 :: rest) ++ ['\n']) ++ ")shexe".data)) := by
    rw [h16]
    simp [List.append_assoc]
  have hfind : finditer mlFindPattern
      (pre ++ "multiline_shexe(".data ++ (joinNl (l1 :: rest) ++ ['\n']) ++ ")shexe".data) =
      ["multiline_shexe".data ++ '(' :: ((joinNl (l1 :: rest) ++ ['\n']) ++ ")shexe".data)] := by
    rw [hbufEq]
    exact ml_finditer_single pre (joinNl (l1 :: rest) ++ ['\n']) hpreM hgrpM
  have hsegs : ∀ l ∈ ("multiline_shexe(".data ++ l1) :: rest,
      l ≠ [] ∧ ∀ c ∈ l, isNlCr c = false := by
    intro l hl2
    rcases List.mem_cons.mp hl2 with h1 | h1
    · subst h1
      refine ⟨fun h => absurd (List.append_eq_nil.mp h).1 (by decide), ?_⟩
      intro c hc
      rcases List.mem_append.mp hc with h2 | h2
      · exact (by decide : ∀ c ∈ "multiline_shexe(".data, isNlCr c = false) c h2
      · exact notBtNlCr_isNlCr ((hl l1 (List.mem_cons_self _ _)).2 c h2)
    · exact ⟨(hl l (List.mem_cons_of_mem _ h1)).1,
        fun c hc => notBtNlCr_isNlCr ((hl l (List.mem_cons_of_mem _ h1)).2 c hc)⟩
  have htail : ∀ c ∈ ")shexe".data, isNlCr c = false := by decide
  have hmain := nlSub_subAll_segs (("multiline_shexe(".data ++ l1) :: rest)
    ")shexe".data hsegs htail
  have hbuf2 : ((("multiline_shexe(".data ++ l1) :: rest).flatMap
      (fun l => l ++ ['\n'])) ++ ")shexe".data =
      "multiline_shexe".data ++ '(' :: ((joinNl (l1 :: rest) ++ ['\n']) ++ ")shexe".data) := by
    rw [h16, ← joinNl_flatMap l1 rest]
    rw [List.flatMap_cons, List.flatMap_cons]
    simp [List.append_assoc]
  have hpo : subAll nlSubPattern nlSubTpl
      ("multiline_shexe".data ++ '(' :: ((joinNl (l1 :: rest) ++ ['\n']) ++ ")shexe".data)) =
      "multiline_shexe(".data ++
        ((l1 :: rest).flatMap (fun l => l ++ "; \\\n".data)) ++ ")shexe".data := by
    rw [← hbuf2, hmain]
    rw [List.flatMap_cons, List.flatMap_cons]
    simp [List.append_assoc]
  have hone : ("multiline_shexe".data ++ '(' :: ((joinNl (l1 :: rest) ++ ['\n']) ++ ")shexe".data)) ≠ [] := by
    intro h
    exact List.cons_ne_nil _ _ (List.append_eq_nil.mp h).2
  have hnopre : ∀ k, k < pre.length →
      startsWithAt (pre ++ ("multiline_shexe".data ++ '(' :: ((joinNl (l1 :: rest) ++ ['\n']) ++ ")shexe".data))) k
        ("multiline_shexe".data ++ '(' :: ((joinNl (l1 :: rest) ++ ['\n']) ++ ")shexe".data)) = false := by
    intro k hk
    by_contra hcon
    rw [Bool.not_eq_false] at hcon
    have hmono := startsWithAt_mono (List.prefix_append "multiline_shexe".data _) hcon
    rw [← List.append_assoc] at hmono
    rw [startsWithAt_append_left _ _ (by
      simp [List.length_append, show ("multiline_shexe".data).length = 15 from rfl]
      omega)] at hmono
    rw [hpreM k hk] at hmono
    exact Bool.noConfusion hmono
  simp only [process_multilines]
  rw [hS1, hfind]
  simp only [List.map_cons, List.map_nil]
  rw [hpo]
  simp only [List.foldl_cons, List.foldl_nil]
  have hbufEq2 : pre ++ "multiline_shexe(".data ++ (joinNl (l1 :: rest) ++ ['\n']) ++ ")shexe".data =
      pre ++ ("multiline_shexe".data ++ '(' :: ((joinNl (l1 :: rest) ++ ['\n']) ++ ")shexe".data)) := by
    rw [h16]
    simp [List.append_assoc]
  rw [hbufEq2]
  rw [replaceAll_prefix_single pre _ _ hone hnopre]
  simp [List.append_assoc]

/-- Witness for the amended C6 at the docstring scenario: prefix `f = `,
content lines `echo 1` and `ls -l`. -/
theorem C6_multiline_join_witness :
    process_multilines ("f = ".data ++ '`' :: '\n' ::
        ((joinNl ["echo 1".data, "ls -l".data] ++ ['\n']) ++ ['`'])) =
      "f = ".data ++ "multiline_shexe(".data ++
        (["echo 1".data, "ls -l".data].flatMap (fun l => l ++ "; \\\n".data)) ++
        ")shexe".data :=
  C6_multiline_join "f = ".data ["echo 1".data, "ls -l".data]
    (by decide) (by decide) (by decide) (by decide) (by decide)

/-! ### The intermediate-to-final pass on a single placeholder -/

theorem countRunGo_le_of_false (p : Char → Bool) :
    ∀ (xs : Str) (j : Nat) (c : Char),
      xs[j]? = some c → p c = false → countRun.go p xs ≤ j := by
  intro xs
  induction xs with
  | nil =>
    intro j c hc
    simp at hc
  | cons d rest ih =>
    intro j c hc hp
    cases j with
    | zero =>
      simp only [List.getElem?_cons_zero, Option.some.injEq] at hc
      subst hc
      simp [countRun.go, hp]
    | succ j2 =>
      simp only [List.getElem?_cons_succ] at hc
      cases hd : p d with
      | false => simp [countRun.go, hd]
      | true =>
        have h2 := ih j2 c hc hp
        simp [countRun.go, hd]
        omega

theorem countRun_le_of_false (p : Char → Bool) (s : Str) (pos j : Nat)
    (c : Char) (hpj : pos ≤ j) (hc : s[j]? = some c) (hp : p c = false) :
    countRun p s pos ≤ j - pos := by
  rw [countRun]
  apply countRunGo_le_of_false p _ (j - pos) c _ hp
  rw [List.getElem?_drop]
  have h1 : pos + (j - pos) = j := by omega
  rw [h1]
  exact hc

theorem matchToks_head_cls_star_full (s : Str) (p : Char → Bool)
    (t : List Tok) (pos : Nat)
    (hhit : matchToks s t (pos + countRun p s pos) ≠ []) :
    (matchToks s (.cls p .star :: t) pos).head? =
      (matchToks s t (pos + countRun p s pos)).head? := by
  rw [matchToks, clsAdvance_star_eq]
  exact head?_flatMap_of_ne _ _ _ hhit

theorem matchToks_nil_cls (s : Str) (p : Char → Bool) (q : Quant)
    (t : List Tok) (pos : Nat)
    (h : ∀ j ∈ clsAdvance p q s pos, matchToks s t j = []) :
    matchToks s (.cls p q :: t) pos = [] := by
  rw [matchToks]
  exact flatMap_eq_nil_of _ _ h

theorem clsAdvance_star_mem {p : Char → Bool} {s : Str} {pos j : Nat}
    (h : j ∈ clsAdvance p .star s pos) :
    pos ≤ j ∧ j ≤ pos + countRun p s pos := by
  simp only [clsAdvance] at h
  rw [List.mem_map] at h
  obtain ⟨k, hk, rfl⟩ := h
  rw [List.mem_reverse, List.mem_range] at hk
  omega

theorem applyRepl_grp_some (s : Str) (ms : Marks) (k a b : Nat)
    (h : groupSpan ms k = some (a, b)) :
    applyRepl s ms (.grp k) = slice s a b := by
  rw [applyRepl, h]

theorem itf_single_block (pre tag body post : Str)
    (htag : ∀ c ∈ tag, isLowerAZ c = true)
    (hpreL : ∀ c, pre.getLast? = some c → isLowerAZ c = false)
    (hnoM : ∀ k, k < pre.length + tag.length →
      startsWithAt (pre ++ (tag ++ ("_shexe(".data ++ (body ++ (")shexe".data ++ post)))))
        k "_shexe(".data = false)
    (hnoE : ∀ k, k < body.length →
      startsWithAt (body ++ (")shexe".data ++ post)) k ")shexe".data = false)
    (hnoP : ∀ k, k < post.length →
      startsWithAt post k "_shexe(".data = false) :
    intermediate_to_final
        (pre ++ (tag ++ ("_shexe(".data ++ (body ++ (")shexe".data ++ post))))) =
      pre ++ "exe(".data ++ [qc] ++ body ++ [qc] ++
        ".format(**dict(locals(), **globals())))".data ++ post := by
  have hdP : (pre ++ (tag ++ ("_shexe(".data ++ (body ++ (")shexe".data ++ post))))).drop pre.length =
      tag ++ ("_shexe(".data ++ (body ++ (")shexe".data ++ post))) :=
    List.drop_left pre _
  have hdM : (pre ++ (tag ++ ("_shexe(".data ++ (body ++ (")shexe".data ++ post))))).drop (pre.length + tag.length) =
      "_shexe(".data ++ (body ++ (")shexe".data ++ post)) := by
    rw [← List.drop_drop, hdP, List.drop_left]
  have hdB : (pre ++ (tag ++ ("_shexe(".data ++ (body ++ (")shexe".data ++ post))))).drop (pre.length + tag.length + 7) =
      body ++ (")shexe".data ++ post) := by
    rw [← List.drop_drop, hdM, show (7 : Nat) = ("_shexe(".data).length from rfl,
      List.drop_left]
  have hdC : (pre ++ (tag ++ ("_shexe(".data ++ (body ++ (")shexe".data ++ post))))).drop (pre.length + tag.length + 7 + body.length) =
      ")shexe".data ++ post := by
    rw [← List.drop_drop, hdB, List.drop_left]
  have hdE : (pre ++ (tag ++ ("_shexe(".data ++ (body ++ (")shexe".data ++ post))))).drop (pre.length + tag.length + 7 + body.length + 6) =
      post := by
    rw [← List.drop_drop, hdC, show (6 : Nat) = (")shexe".data).length from rfl,
      List.drop_left]
  have hSlen : (pre ++ (tag ++ ("_shexe(".data ++ (body ++ (")shexe".data ++ post))))).length =
      pre.length + tag.length + 7 + body.length + 6 + post.length := by
    simp [List.length_append, show ("_shexe(".data).length = 7 from rfl,
      show (")shexe".data).length = 6 from rfl]
    omega
  have hrun0 : countRun isLowerAZ (pre ++ (tag ++ ("_shexe(".data ++ (body ++ (")shexe".data ++ post)))))
      pre.length = tag.length := by
    rw [countRun, hdP,
      show tag ++ ("_shexe(".data ++ (body ++ (")shexe".data ++ post))) =
        tag ++ '_' :: ("shexe(".data ++ (body ++ (")shexe".data ++ post))) from rfl]
    exact countRunGo_stop isLowerAZ tag '_' _ htag (by decide)
  have hsplitB : pre ++ (tag ++ ("_shexe(".data ++ (body ++ (")shexe".data ++ post)))) =
      (pre ++ (tag ++ "_shexe(".data)) ++ (body ++ (")shexe".data ++ post)) := by
    simp [List.append_assoc]
  have hABlen : (pre ++ (tag ++ "_shexe(".data)).length =
      pre.length + tag.length + 7 := by
    simp [List.length_append, show ("_shexe(".data).length = 7 from rfl]
    omega
  have hswX : ∀ j, startsWithAt (pre ++ (tag ++ ("_shexe(".data ++ (body ++ (")shexe".data ++ post)))))
      (pre.length + tag.length + 7 + j) ")shexe".data =
      startsWithAt (body ++ (")shexe".data ++ post)) j ")shexe".data := by
    intro j
    have h1 := startsWithAt_append_right (pre ++ (tag ++ "_shexe(".data))
      (body ++ (")shexe".data ++ post)) ")shexe".data j
    rw [hABlen, ← hsplitB] at h1
    exact h1
  have hsplitE : pre ++ (tag ++ ("_shexe(".data ++ (body ++ (")shexe".data ++ post)))) =
      (pre ++ (tag ++ ("_shexe(".data ++ (body ++ ")shexe".data)))) ++ post := by
    simp [List.append_assoc]
  have hAElen : (pre ++ (tag ++ ("_shexe(".data ++ (body ++ ")shexe".data)))).length =
      pre.length + tag.length + 7 + body.length + 6 := by
    simp [List.length_append, show ("_shexe(".data).length = 7 from rfl,
      show (")shexe".data).length = 6 from rfl]
    omega
  have hswP : ∀ j, startsWithAt (pre ++ (tag ++ ("_shexe(".data ++ (body ++ (")shexe".data ++ post)))))
      (pre.length + tag.length + 7 + body.length + 6 + j) "_shexe(".data =
      startsWithAt post j "_shexe(".data := by
    intro j
    have h1 := startsWithAt_append_right
      (pre ++ (tag ++ ("_shexe(".data ++ (body ++ ")shexe".data)))) post
      "_shexe(".data j
    rw [hAElen, ← hsplitE] at h1
    exact h1
  have hnoPS : ∀ j, pre.length + tag.length + 7 + body.length + 6 ≤ j →
      startsWithAt (pre ++ (tag ++ ("_shexe(".data ++ (body ++ (")shexe".data ++ post)))))
        j "_shexe(".data = false := by
    intro j hj
    obtain ⟨k, rfl⟩ : ∃ k, j = pre.length + tag.length + 7 + body.length + 6 + k :=
      ⟨j - (pre.length + tag.length + 7 + body.length + 6), by omega⟩
    rw [hswP k]
    by_cases hk : k < post.length
    · exact hnoP k hk
    · rw [startsWithAt, List.drop_eq_nil_of_le (by omega)]
      rfl
  have hU5 : matchToks (pre ++ (tag ++ ("_shexe(".data ++ (body ++ (")shexe".data ++ post)))))
      [.lit ")shexe".data] (pre.length + tag.length + 7 + body.length) =
      [(pre.length + tag.length + 7 + body.length + 6, [])] := by
    have hsw : startsWithAt (pre ++ (tag ++ ("_shexe(".data ++ (body ++ (")shexe".data ++ post)))))
        (pre.length + tag.length + 7 + body.length) ")shexe".data = true := by
      rw [startsWithAt, hdC]
      simp [List.isPrefixOf_iff_prefix]
    rw [matchToks, if_pos hsw, matchToks,
      show pre.length + tag.length + 7 + body.length + (")shexe".data).length =
        pre.length + tag.length + 7 + body.length + 6 from rfl]
  have hU4 : matchToks (pre ++ (tag ++ ("_shexe(".data ++ (body ++ (")shexe".data ++ post)))))
      [.mark 1, .lit ")shexe".data] (pre.length + tag.length + 7 + body.length) =
      [(pre.length + tag.length + 7 + body.length + 6,
        [(1, pre.length + tag.length + 7 + body.length)])] := by
    rw [matchToks, hU5]
    rfl
  have hU3 : (matchToks (pre ++ (tag ++ ("_shexe(".data ++ (body ++ (")shexe".data ++ post)))))
      [.cls anyChar .lazyStar, .mark 1, .lit ")shexe".data]
      (pre.length + tag.length + 7)).head? =
      some (pre.length + tag.length + 7 + body.length + 6,
        [(1, pre.length + tag.length + 7 + body.length)]) := by
    have hrunB : body.length ≤ countRun anyChar
        (pre ++ (tag ++ ("_shexe(".data ++ (body ++ (")shexe".data ++ post)))))
        (pre.length + tag.length + 7) := by
      rw [countRun, hdB, countRunGo_all anyChar _ (fun c _ => rfl)]
      simp [List.length_append]
    rw [matchToks_head_cls_lazy _ anyChar _ (pre.length + tag.length + 7)
      body.length hrunB
      (fun j hj => by
        apply matchToks_nil_mark
        apply matchToks_nil_lit
        rw [hswX j]
        exact hnoE j hj)
      (by rw [hU4]; simp)]
    rw [hU4]
    rfl
  have hU2 : (matchToks (pre ++ (tag ++ ("_shexe(".data ++ (body ++ (")shexe".data ++ post)))))
      [.mark 0, .cls anyChar .lazyStar, .mark 1, .lit ")shexe".data]
      (pre.length + tag.length + 7)).head? =
      some (pre.length + tag.length + 7 + body.length + 6,
        [(0, pre.length + tag.length + 7),
         (1, pre.length + tag.length + 7 + body.length)]) := by
    rw [matchToks_head_mark, hU3]
    rfl
  have hU1 : (matchToks (pre ++ (tag ++ ("_shexe(".data ++ (body ++ (")shexe".data ++ post)))))
      [.lit "_shexe(".data, .mark 0, .cls anyChar .lazyStar, .mark 1,
       .lit ")shexe".data] (pre.length + tag.length)).head? =
      some (pre.length + tag.length + 7 + body.length + 6,
        [(0, pre.length + tag.length + 7),
         (1, pre.length + tag.length + 7 + body.length)]) := by
    have hswM : startsWithAt (pre ++ (tag ++ ("_shexe(".data ++ (body ++ (")shexe".data ++ post)))))
        (pre.length + tag.length) "_shexe(".data = true := by
      rw [startsWithAt, hdM]
      simp [List.isPrefixOf_iff_prefix]
    rw [matchToks_head_lit _ "_shexe(".data _ (pre.length + tag.length) hswM]
    exact hU2
  have hhit : matchAt itfPattern (pre ++ (tag ++ ("_shexe(".data ++ (body ++ (")shexe".data ++ post)))))
      pre.length =
      some (pre.length + tag.length + 7 + body.length + 6,
        [(0, pre.length + tag.length + 7),
         (1, pre.length + tag.length + 7 + body.length)]) := by
    rw [matchAt, itfPattern]
    rw [matchToks_head_cls_star_full _ isLowerAZ _ pre.length
      (by rw [hrun0]; exact ne_nil_of_head_some hU1)]
    rw [hrun0]
    exact hU1
  have hfail : ∀ q, q < pre.length →
      matchAt itfPattern (pre ++ (tag ++ ("_shexe(".data ++ (body ++ (")shexe".data ++ post)))))
        q = none := by
    intro q hq
    have hlast : pre[pre.length - 1]? = some pre[pre.length - 1] :=
      List.getElem?_eq_getElem (by omega)
    have hlow : isLowerAZ pre[pre.length - 1] = false := by
      apply hpreL
      rw [List.getLast?_eq_getElem?]
      exact hlast
    have hSc : (pre ++ (tag ++ ("_shexe(".data ++ (body ++ (")shexe".data ++ post)))))[pre.length - 1]? =
        some pre[pre.length - 1] := by
      rw [List.getElem?_append_left (by omega)]
      exact hlast
    have hrle := countRun_le_of_false isLowerAZ
      (pre ++ (tag ++ ("_shexe(".data ++ (body ++ (")shexe".data ++ post)))))
      q (pre.length - 1) pre[pre.length - 1] (by omega) hSc hlow
    rw [matchAt, itfPattern, matchToks_nil_cls _ isLowerAZ .star _ q
      (fun j hjm => by
        obtain ⟨hj1, hj2⟩ := clsAdvance_star_mem hjm
        exact matchToks_nil_lit _ _ _ _ (hnoM j (by omega)))]
    rfl
  have hsf : searchFrom itfPattern (pre ++ (tag ++ ("_shexe(".data ++ (body ++ (")shexe".data ++ post)))))
      0 = some (pre.length, pre.length + tag.length + 7 + body.length + 6,
        [(0, pre.length + tag.length + 7),
         (1, pre.length + tag.length + 7 + body.length)]) := by
    rw [searchFrom]
    exact searchFromF_skip itfPattern _ _ 0 pre.length _ (Nat.zero_le _)
      (by omega) (fun q h1 h2 => hfail q h2) hhit (by omega)
  have hsfend : searchFrom itfPattern (pre ++ (tag ++ ("_shexe(".data ++ (body ++ (")shexe".data ++ post)))))
      (pre.length + tag.length + 7 + body.length + 6) = none := by
    rw [searchFrom]
    apply searchFromF_none_of
    intro q h1 h2
    rw [matchAt, itfPattern, matchToks_nil_cls _ isLowerAZ .star _ q
      (fun j hjm => by
        obtain ⟨hj1, hj2⟩ := clsAdvance_star_mem hjm
        exact matchToks_nil_lit _ _ _ _ (hnoPS j (by omega)))]
    rfl
  have hg0 : groupSpan [(0, pre.length + tag.length + 7),
      (1, pre.length + tag.length + 7 + body.length)] 0 =
      some (pre.length + tag.length + 7, pre.length + tag.length + 7 + body.length) := by
    simp [groupSpan, List.lookup]
  have hsl0 : slice (pre ++ (tag ++ ("_shexe(".data ++ (body ++ (")shexe".data ++ post)))))
      0 pre.length = pre := by
    rw [slice_eq_take_drop, List.drop_zero, Nat.sub_zero]
    exact List.take_left pre _
  have hslB : slice (pre ++ (tag ++ ("_shexe(".data ++ (body ++ (")shexe".data ++ post)))))
      (pre.length + tag.length + 7) (pre.length + tag.length + 7 + body.length) =
      body := by
    rw [slice_eq_take_drop, hdB]
    have h1 : pre.length + tag.length + 7 + body.length -
        (pre.length + tag.length + 7) = body.length := by omega
    rw [h1, List.take_left]
  rw [intermediate_to_final, subAll,
    subAllF_succ_some _ _ _ (pre ++ (tag ++ ("_shexe(".data ++ (body ++ (")shexe".data ++ post))))).length
      0 pre.length (pre.length + tag.length + 7 + body.length + 6) _ hsf]
  rw [if_pos (by omega)]
  rw [subAllF_of_searchFrom_none _ _ _ _ _ hsfend, hdE]
  rw [buildRepl, itfTpl, List.flatMap_cons, List.flatMap_cons,
    List.flatMap_cons, List.flatMap_nil]
  rw [applyRepl_grp_some _ _ _ _ _ hg0]
  rw [applyRepl, applyRepl]
  rw [hsl0, hslB]
  simp [List.append_assoc]

/-- **C1 amended.** The Emitter rewrites every tagged placeholder into a
call to the execution primitive on a single-quoted literal of the raw text
formatted over `dict(locals(), **globals())`, whose `{name}` tokens are
resolved at execution time against the union of the caller's local and
global bindings with **globals** taking precedence on a name collision:
a name bound in globals resolves to its global value, and a name not bound
in globals resolves to its local binding. -/
theorem C1_emitter_and_resolution :
    (∀ (pre tag body post : Str),
      (∀ c ∈ tag, isLowerAZ c = true) →
      (∀ c, pre.getLast? = some c → isLowerAZ c = false) →
      (∀ k, k < pre.length + tag.length →
        startsWithAt (pre ++ (tag ++ ("_shexe(".data ++ (body ++ (")shexe".data ++ post)))))
          k "_shexe(".data = false) →
      (∀ k, k < body.length →
        startsWithAt (body ++ (")shexe".data ++ post)) k ")shexe".data = false) →
      (∀ k, k < post.length → startsWithAt post k "_shexe(".data = false) →
      intermediate_to_final
          (pre ++ (tag ++ ("_shexe(".data ++ (body ++ (")shexe".data ++ post))))) =
        pre ++ "exe(".data ++ [qc] ++ body ++ [qc] ++
          ".format(**dict(locals(), **globals())))".data ++ post) ∧
    (∀ (locs globs : List (String × Str)) (n : String) (v : Str),
      lookupA n globs = some v → resolveName locs globs n = some v) ∧
    (∀ (locs globs : List (String × Str)) (n : String),
      lookupA n globs = none → resolveName locs globs n = lookupA n locs) := by
  refine ⟨fun pre tag body post h1 h2 h3 h4 h5 =>
      itf_single_block pre tag body post h1 h2 h3 h4 h5,
    fun locs globs n v h => ?_, fun locs globs n h => ?_⟩
  · simp [resolveName, h]
  · simp [resolveName, h]

/-- Witness for C1 amended at concrete inputs: the placeholder
`both_shexe(echo hello)shexe` after `f = ` is rewritten into the
single-quoted `exe`/`format` call, `y` bound only globally resolves to the
global value, and `z` bound only locally resolves to the local value. -/
theorem C1_emitter_and_resolution_witness :
    (intermediate_to_final
        ("f = ".data ++ ("both".data ++ ("_shexe(".data ++
          ("echo hello".data ++ (")shexe".data ++ ([] : Str)))))) =
      "f = ".data ++ "exe(".data ++ [qc] ++ "echo hello".data ++ [qc] ++
        ".format(**dict(locals(), **globals())))".data ++ ([] : Str)) ∧
    resolveName [("z", "3".data)] [("y", "7".data)] "y" = some "7".data ∧
    resolveName [("z", "3".data)] [("y", "7".data)] "z" = lookupA "z" [("z", "3".data)] :=
  ⟨C1_emitter_and_resolution.1 "f = ".data "both".data "echo hello".data []
     (by decide) (by decide) (by decide) (by decide) (by decide),
   C1_emitter_and_resolution.2.1 [("z", "3".data)] [("y", "7".data)] "y" "7".data rfl,
   C1_emitter_and_resolution.2.2 [("z", "3".data)] [("y", "7".data)] "z" rfl⟩

/-- Witness for C9 amended at a concrete line: `x = `⎵`ls -la` is
rewritten, `x = `⎵backtick alone is untouched. -/
theorem C9_start_only_witness :
    process_code_start ("x = ".data ++ '`' :: 'l' :: "s -la".data) =
      "x = ".data ++ "start_shexe(".data ++ ('l' :: "s -la".data) ++
        ")shexe".data ∧
    process_code_start ("x = ".data ++ ['`']) = "x = ".data ++ ['`'] :=
  C9_start_only "x = ".data "s -la".data 'l' (by decide) (by decide)

end Shellpy

